import Mathlib

/-!
# Lab2DB: the café benchmark harness (`src/index.js`)

A shallow embedding of the seeding and benchmarking script.

* Numbers are the rationals that binary64 values denote.  `Math.random()`
  draws are read from a stream `Env.random`; a product or sum is the exact
  result rounded to binary64 (`binary64`: nearest, ties to even, 53-bit
  significand, subnormals below `2^-1022`; overflow is not reached).
* The relational store is modelled from the DDL that `initPostgres` sends:
  five relations with `SERIAL` keys, `NOT NULL`, `CHECK` and `FOREIGN KEY`
  constraints.  The document store is three schemaless collections.
* Every request a store answers is one step that may be rejected from outside
  (`Env.fault`); the trace records each one together with its outcome.
  `pgClient.end()` is not such a request: it resolves in every state of the
  connection.
* The requests of a `Promise.all` batch are prepared in the loop that queues
  them and answered in the order of the queue; a rejection ends the `await`,
  and the requests queued behind it are not answered before the run ends.
* `performance.now()` readings are not modelled; the timing lines appear in
  the trace without their number.
-/

namespace Lab2DB

/-! ## JavaScript primitives -/

/-- Rounding of a rational to the nearest integer, ties to the even one. -/
def roundHalfEven (y : ℚ) : ℤ :=
  if y - (Int.floor y : ℚ) < 1 / 2 then Int.floor y
  else if 1 / 2 < y - (Int.floor y : ℚ) then Int.floor y + 1
  else if Int.floor y % 2 = 0 then Int.floor y
  else Int.floor y + 1

/-- The exponent of the unit in the last place of the binary64 values around
`x ≠ 0`: 52 below the exponent of `x`, and `-1074` in the subnormal range. -/
def ulpExponent (x : ℚ) : ℤ := max (Int.log 2 |x| - 52) (-1074)

/-- Rounding of an exact result to binary64 (round to nearest, ties to even),
for results below `2^1024` in absolute value. -/
def binary64 (x : ℚ) : ℚ :=
  if x = 0 then 0
  else if x < 0 then
    -((roundHalfEven (-x / (2 : ℚ) ^ ulpExponent x) : ℚ) * (2 : ℚ) ^ ulpExponent x)
  else (roundHalfEven (x / (2 : ℚ) ^ ulpExponent x) : ℚ) * (2 : ℚ) ^ ulpExponent x

/-- The rationals that are binary64 values: an integer significand below
`2^53` in absolute value times a power of two with exponent in `[-1074, 971]`. -/
def IsBinary64 (x : ℚ) : Prop :=
  ∃ m e : ℤ, |m| < 2 ^ 53 ∧ -1074 ≤ e ∧ e ≤ 971 ∧ x = (m : ℚ) * (2 : ℚ) ^ e

/-- A value `Math.random()` may return: a binary64 value in `[0, 1)`. -/
def IsDraw (r : ℚ) : Prop := IsBinary64 r ∧ 0 ≤ r ∧ r < 1

/-- The Number product `x * y`. -/
def jsMul (x y : ℚ) : ℚ := binary64 (x * y)

/-- The Number sum `x + y`. -/
def jsAdd (x y : ℚ) : ℚ := binary64 (x + y)

/-- The function `Math.floor`. -/
def mathFloor (x : ℚ) : ℤ := Int.floor x

/-- The function `Math.ceil`. -/
def mathCeil (x : ℚ) : ℤ := Int.ceil x

/-- Array indexing `xs[i]`: `none` stands for `undefined`. -/
def jsIndex {α : Type} (xs : List α) (i : ℤ) : Option α :=
  if i < 0 then none else xs.get? i.toNat

/-- The text `x.toFixed(2)` produces for `|x| < 10^21`, kept in structured
form: a sign and the integer `n` for which `n / 100` is nearest to `|x|`
(the larger one on a tie). -/
structure Fixed2 where
  negative : Bool
  hundredths : ℕ
  deriving DecidableEq, Repr

/-- The number a `toFixed(2)` text denotes. -/
def Fixed2.value (p : Fixed2) : ℚ :=
  if p.negative then -((p.hundredths : ℚ) / 100) else (p.hundredths : ℚ) / 100

/-- The characters of a `toFixed(2)` text: sign, integer digits, a point and
the two fraction digits. -/
def Fixed2.render (p : Fixed2) : List Char :=
  (if p.negative then ['-'] else []) ++ Nat.toDigits 10 (p.hundredths / 100) ++
    ['.', Nat.digitChar (p.hundredths % 100 / 10), Nat.digitChar (p.hundredths % 10)]

/-- The method `Number.prototype.toFixed` with two fraction digits. -/
def toFixed2 (x : ℚ) : Fixed2 :=
  { negative := decide (x < 0)
    hundredths := (Int.floor (|x| * 100 + 1 / 2)).toNat }

/-- The array `categories` of both populate functions. -/
def categories : List String := ["Drinks", "Snacks", "Meals"]

/-- The expression `categories[Math.floor(Math.random() * categories.length)]`. -/
def pickCategory (r : ℚ) : Option String :=
  jsIndex categories (mathFloor (jsMul r (categories.length : ℚ)))

/-- The expression `(Math.random() * 50).toFixed(2)`. -/
def randomPrice (r : ℚ) : Fixed2 := toFixed2 (jsMul r 50)

/-- The phone template with `Math.floor(100000000 + Math.random() * 900000000)`. -/
def randomPhone (r : ℚ) : String :=
  "+380" ++ toString (mathFloor (jsAdd 100000000 (jsMul r 900000000)))

/-- The template `Customer ${n}`. -/
def customerName (n : ℤ) : String := "Customer " ++ toString n

/-- The template `Product ${n}`. -/
def productName (n : ℤ) : String := "Product " ++ toString n

/-- The expression `Math.ceil(Math.random() * 50)`: the customer of an order. -/
def randomCustomerId (r : ℚ) : ℤ := mathCeil (jsMul r 50)

/-- The expression `Math.ceil(Math.random() * 20)`: the table of an order. -/
def randomTableId (r : ℚ) : ℤ := mathCeil (jsMul r 20)

/-- The expression `Math.ceil(Math.random() * 30)`: the product of an item. -/
def randomProductId (r : ℚ) : ℤ := mathCeil (jsMul r 30)

/-- The expression `Math.ceil(Math.random() * 5)`: the quantity of an item. -/
def randomQuantity (r : ℚ) : ℤ := mathCeil (jsMul r 5)

/-! ## The relational store -/

/-- Why a store call was rejected. -/
inductive Err
  | connection
  | undefinedTable (table : String)
  | duplicateTable (table : String)
  | notNull (table column : String)
  | check (table column : String)
  | foreignKey (table column : String)
  deriving DecidableEq, Repr

/-- A row of `customers (id, name NOT NULL, phone)`. -/
structure Customer where
  id : ℤ
  name : String
  phone : Option String
  deriving DecidableEq, Repr

/-- A row of `tables (id, number NOT NULL, status NOT NULL CHECK ...)`. -/
structure CafeTable where
  id : ℤ
  number : ℤ
  status : String
  deriving DecidableEq, Repr

/-- A row of `products (id, name, category, price)`, all `NOT NULL`. -/
structure Product where
  id : ℤ
  name : String
  category : String
  price : Fixed2
  deriving DecidableEq, Repr

/-- A row of `orders (id, customer_id, table_id, order_date)`. -/
structure Order where
  id : ℤ
  customer_id : ℤ
  table_id : ℤ
  order_date : ℕ
  deriving DecidableEq, Repr

/-- A row of `order_items (id, order_id, product_id, quantity)`. -/
structure OrderItem where
  id : ℤ
  order_id : ℤ
  product_id : ℤ
  quantity : ℤ
  deriving DecidableEq, Repr

/-- A relation with a `SERIAL` key: its rows in insertion order and the next
value of its sequence. -/
structure Relation (ρ : Type) where
  rows : List ρ
  nextId : ℤ
  deriving DecidableEq, Repr

/-- A relation right after `CREATE TABLE`: no rows, sequence at 1. -/
def Relation.fresh {ρ : Type} : Relation ρ := ⟨[], 1⟩

/-- An accepted insert: the row gets the next sequence value. -/
def Relation.insert {ρ : Type} (rel : Relation ρ) (mk : ℤ → ρ) : Relation ρ :=
  ⟨rel.rows ++ [mk rel.nextId], rel.nextId + 1⟩

/-- A rejected insert: the sequence value it drew is not given back. -/
def Relation.skip {ρ : Type} (rel : Relation ρ) : Relation ρ :=
  ⟨rel.rows, rel.nextId + 1⟩

/-- The database `cafeDB`: each of the five relations exists or not. -/
structure PgDb where
  customers : Option (Relation Customer)
  tables : Option (Relation CafeTable)
  products : Option (Relation Product)
  orders : Option (Relation Order)
  order_items : Option (Relation OrderItem)
  deriving DecidableEq, Repr

/-- The statement `DROP TABLE IF EXISTS order_items, orders, products,
customers, tables`. -/
def dropTables (_db : PgDb) : PgDb := ⟨none, none, none, none, none⟩

/-- The statement `CREATE TABLE customers`. -/
def createCustomers (db : PgDb) : Except Err PgDb :=
  if db.customers.isSome then .error (.duplicateTable "customers")
  else .ok { db with customers := some Relation.fresh }

/-- The statement `CREATE TABLE tables`. -/
def createTables (db : PgDb) : Except Err PgDb :=
  if db.tables.isSome then .error (.duplicateTable "tables")
  else .ok { db with tables := some Relation.fresh }

/-- The statement `CREATE TABLE products`. -/
def createProducts (db : PgDb) : Except Err PgDb :=
  if db.products.isSome then .error (.duplicateTable "products")
  else .ok { db with products := some Relation.fresh }

/-- The statement `CREATE TABLE orders`: its foreign keys need `customers`
and `tables` to exist. -/
def createOrders (db : PgDb) : Except Err PgDb :=
  if db.orders.isSome then .error (.duplicateTable "orders")
  else if db.customers.isNone then .error (.undefinedTable "customers")
  else if db.tables.isNone then .error (.undefinedTable "tables")
  else .ok { db with orders := some Relation.fresh }

/-- The statement `CREATE TABLE order_items`: its foreign keys need `orders`
and `products` to exist. -/
def createOrderItems (db : PgDb) : Except Err PgDb :=
  if db.order_items.isSome then .error (.duplicateTable "order_items")
  else if db.orders.isNone then .error (.undefinedTable "orders")
  else if db.products.isNone then .error (.undefinedTable "products")
  else .ok { db with order_items := some Relation.fresh }

/-- The DDL text of `initPostgres`, statement by statement. -/
def resetScript (db : PgDb) : Except Err PgDb :=
  createCustomers (dropTables db) >>= createTables >>= createProducts >>=
    createOrders >>= createOrderItems

/-- The schema right after a reset: five empty relations. -/
def freshSchema : PgDb :=
  ⟨some Relation.fresh, some Relation.fresh, some Relation.fresh, some Relation.fresh,
    some Relation.fresh⟩

/-- Whether some row of an optional relation has the key `k`. -/
def hasKey {ρ : Type} (key : ρ → ℤ) (rel : Option (Relation ρ)) (k : ℤ) : Bool :=
  match rel with
  | none => false
  | some r => (r.rows.map key).contains k

/-- The statement `INSERT INTO customers (name, phone) VALUES ($1, $2)`. -/
def insertCustomer (db : PgDb) (name phone : Option String) : Except Err Unit × PgDb :=
  match db.customers with
  | none => (.error (.undefinedTable "customers"), db)
  | some rel =>
    match name with
    | none => (.error (.notNull "customers" "name"), { db with customers := some rel.skip })
    | some n =>
      (.ok (), { db with customers := some (rel.insert fun id => ⟨id, n, phone⟩) })

/-- The statement `INSERT INTO tables (number, status) VALUES ($1, $2)`; the
source passes the literal `free` as status. -/
def insertTable (db : PgDb) (number : Option ℤ) (status : String) : Except Err Unit × PgDb :=
  match db.tables with
  | none => (.error (.undefinedTable "tables"), db)
  | some rel =>
    match number with
    | none => (.error (.notNull "tables" "number"), { db with tables := some rel.skip })
    | some n =>
      if status = "free" ∨ status = "occupied" then
        (.ok (), { db with tables := some (rel.insert fun id => ⟨id, n, status⟩) })
      else (.error (.check "tables" "status"), { db with tables := some rel.skip })

/-- The statement `INSERT INTO products (name, category, price) VALUES ($1, $2, $3)`. -/
def insertProduct (db : PgDb) (name category : Option String) (price : Option Fixed2) :
    Except Err Unit × PgDb :=
  match db.products with
  | none => (.error (.undefinedTable "products"), db)
  | some rel =>
    match name, category, price with
    | some n, some c, some p =>
      (.ok (), { db with products := some (rel.insert fun id => ⟨id, n, c, p⟩) })
    | none, _, _ => (.error (.notNull "products" "name"), { db with products := some rel.skip })
    | some _, none, _ =>
      (.error (.notNull "products" "category"), { db with products := some rel.skip })
    | some _, some _, none =>
      (.error (.notNull "products" "price"), { db with products := some rel.skip })

/-- The statement `INSERT INTO orders (customer_id, table_id) VALUES ($1, $2)
RETURNING id`; `now` is the value of `CURRENT_TIMESTAMP`. -/
def insertOrder (db : PgDb) (customerId tableId : Option ℤ) (now : ℕ) :
    Except Err ℤ × PgDb :=
  match db.orders with
  | none => (.error (.undefinedTable "orders"), db)
  | some rel =>
    match customerId, tableId with
    | some c, some t =>
      if !hasKey Customer.id db.customers c then
        (.error (.foreignKey "orders" "customer_id"), { db with orders := some rel.skip })
      else if !hasKey CafeTable.id db.tables t then
        (.error (.foreignKey "orders" "table_id"), { db with orders := some rel.skip })
      else
        (.ok rel.nextId, { db with orders := some (rel.insert fun id => ⟨id, c, t, now⟩) })
    | none, _ => (.error (.notNull "orders" "customer_id"), { db with orders := some rel.skip })
    | some _, none =>
      (.error (.notNull "orders" "table_id"), { db with orders := some rel.skip })

/-- The statement `INSERT INTO order_items (order_id, product_id, quantity)
VALUES ($1, $2, $3)`. -/
def insertOrderItem (db : PgDb) (orderId productId quantity : Option ℤ) :
    Except Err Unit × PgDb :=
  match db.order_items with
  | none => (.error (.undefinedTable "order_items"), db)
  | some rel =>
    match orderId, productId, quantity with
    | some o, some p, some q =>
      if !hasKey Order.id db.orders o then
        (.error (.foreignKey "order_items" "order_id"),
          { db with order_items := some rel.skip })
      else if !hasKey Product.id db.products p then
        (.error (.foreignKey "order_items" "product_id"),
          { db with order_items := some rel.skip })
      else
        (.ok (), { db with order_items := some (rel.insert fun id => ⟨id, o, p, q⟩) })
    | none, _, _ =>
      (.error (.notNull "order_items" "order_id"), { db with order_items := some rel.skip })
    | some _, none, _ =>
      (.error (.notNull "order_items" "product_id"), { db with order_items := some rel.skip })
    | some _, some _, none =>
      (.error (.notNull "order_items" "quantity"), { db with order_items := some rel.skip })

/-- The rows of an optional relation (none when it does not exist). -/
def rowsOf {ρ : Type} (rel : Option (Relation ρ)) : List ρ :=
  match rel with
  | none => []
  | some r => r.rows

/-- A row of the join that `testPerformance` selects. -/
structure JoinRow where
  name : String
  id : ℤ
  product_name : String
  quantity : ℤ
  deriving DecidableEq, Repr

/-- The query `SELECT customers.name, orders.id, products.name, order_items.quantity
FROM customers JOIN orders JOIN order_items JOIN products`. -/
def selectJoin (db : PgDb) : Except Err (List JoinRow) :=
  match db.customers, db.orders, db.order_items, db.products with
  | some cs, some os, some is, some ps =>
    .ok (cs.rows.flatMap fun c =>
      (os.rows.filter fun o => o.customer_id = c.id).flatMap fun o =>
        (is.rows.filter fun i => i.order_id = o.id).flatMap fun i =>
          (ps.rows.filter fun p => p.id = i.product_id).map fun p =>
            ⟨c.name, o.id, p.name, i.quantity⟩)
  | none, _, _, _ => .error (.undefinedTable "customers")
  | some _, none, _, _ => .error (.undefinedTable "orders")
  | some _, some _, none, _ => .error (.undefinedTable "order_items")
  | some _, some _, some _, none => .error (.undefinedTable "products")

/-! ## The document store -/

/-- A document of the collection `customers`. -/
structure CustomerDoc where
  name : String
  phone : String
  deriving DecidableEq, Repr

/-- A document of the collection `menu`; an `undefined` category is `none`. -/
structure MenuDoc where
  name : String
  category : Option String
  price : Fixed2
  deriving DecidableEq, Repr

/-- An embedded item of an order document. -/
structure ItemDoc where
  product : String
  quantity : ℤ
  deriving DecidableEq, Repr

/-- A document of the collection `orders`. -/
structure OrderDoc where
  customer : String
  table : ℤ
  order_date : ℕ
  items : List ItemDoc
  deriving DecidableEq, Repr

/-- The database `cafe`: three collections. -/
structure MongoDb where
  customers : List CustomerDoc
  menu : List MenuDoc
  orders : List OrderDoc
  deriving DecidableEq, Repr

/-! ## The run: state, store calls, control -/

/-- The six phases of a run, in the order `main` reaches them. -/
inductive Phase
  | resetRelational
  | resetDocument
  | populateRelational
  | populateDocument
  | relationalRead
  | documentRead
  deriving DecidableEq, Repr

/-- The phases in their fixed order. -/
def allPhases : List Phase :=
  [.resetRelational, .resetDocument, .populateRelational, .populateDocument,
    .relationalRead, .documentRead]

/-- The three collections. -/
inductive Coll
  | customers
  | menu
  | orders
  deriving DecidableEq, Repr

/-- The calls the script makes on the two store clients. -/
inductive Call
  | pgConnect
  | pgReset
  | pgInsertCustomer
  | pgInsertTable
  | pgInsertProduct
  | pgInsertOrder
  | pgInsertOrderItem
  | pgSelect
  | pgEnd
  | mongoConnect
  | mongoDeleteMany (c : Coll)
  | mongoInsertMany (c : Coll)
  | mongoInsertOne (c : Coll)
  | mongoFind (c : Coll)
  | mongoClose
  deriving DecidableEq, Repr

/-- What a run leaves in its trace: store calls with their outcome, console
output, and ghost marks for the start and the failure of a phase. -/
inductive Event
  | call (c : Call) (ok : Bool)
  | phase (p : Phase)
  | phaseFailed (p : Phase)
  | consoleLog (line : String)
  | consoleError (e : Err)
  deriving DecidableEq, Repr

/-- What a run does not decide itself: the `Math.random()` draws, which store
calls are rejected from outside (by the number of the call), and the clock. -/
structure Env where
  random : ℕ → ℚ
  fault : ℕ → Bool
  now : ℕ → ℕ

/-- The state a run threads: both stores, how many store calls and draws
were made so far, and the trace. -/
structure World where
  pg : PgDb
  mongo : MongoDb
  calls : ℕ
  draws : ℕ
  trace : List Event

/-- An action of the script: it ends normally or throws, and leaves a state
either way. -/
def M (α : Type) : Type := World → Except Err α × World

/-- Normal completion with a value. -/
def M.pure {α : Type} (a : α) : M α := fun w => (.ok a, w)

/-- Sequencing (`await` then continue): a throw skips the rest. -/
def M.bind {α β : Type} (m : M α) (f : α → M β) : M β := fun w =>
  match m w with
  | (.ok a, w1) => f a w1
  | (.error e, w1) => (.error e, w1)

instance : Monad M where
  pure := M.pure
  bind := M.bind

/-- One `Math.random()` call. -/
def random (env : Env) : M ℚ := fun w =>
  (.ok (env.random w.draws), { w with draws := w.draws + 1 })

/-- Append an event to the trace. -/
def emit (ev : Event) : M Unit := fun w =>
  (.ok (), { w with trace := w.trace ++ [ev] })

/-- One call on a store client: rejected from outside when `env.fault` says
so, otherwise answered by the store; the trace gets the call and its outcome. -/
def storeCall {α : Type} (env : Env) (c : Call) (op : World → Except Err α × World) :
    M α := fun w =>
  let w1 := { w with calls := w.calls + 1 }
  if env.fault w.calls then
    (.error .connection, { w1 with trace := w1.trace ++ [.call c false] })
  else
    match op w1 with
    | (.ok a, w2) => (.ok a, { w2 with trace := w2.trace ++ [.call c true] })
    | (.error e, w2) => (.error e, { w2 with trace := w2.trace ++ [.call c false] })

/-- A call on `pgClient` that runs a statement on the relational store. -/
def pgCall {α : Type} (env : Env) (c : Call) (stmt : PgDb → Except Err α × PgDb) : M α :=
  storeCall env c fun w =>
    let (r, db) := stmt w.pg
    (r, { w with pg := db })

/-- A call on the `cafe` database that updates the document store. -/
def mongoCall (env : Env) (c : Call) (upd : MongoDb → MongoDb) : M Unit :=
  storeCall env c fun w => (.ok (), { w with mongo := upd w.mongo })

/-- A call on a store client that only opens or closes the connection. -/
def plainCall (env : Env) (c : Call) : M Unit :=
  storeCall env c fun w => (.ok (), w)

/-- A call that no state of the store turns into a rejection: `pgClient.end()`
resolves when the connection has ended, and at once when none was opened. -/
def settledCall (c : Call) : M Unit := fun w =>
  (.ok (), { w with calls := w.calls + 1, trace := w.trace ++ [.call c true] })

/-- The loop `for (let i = start; i < start + count; i++) await body(i)`: a
throw in the body leaves the loop. -/
def forLoop (start count : ℕ) (body : ℕ → M Unit) : M Unit :=
  match count with
  | 0 => pure ()
  | n + 1 => do
    body start
    forLoop (start + 1) n body

/-- A loop that pushes `body(i)` onto an array for `i` from `start`, `count`
times; the result is the array. -/
def collect {α : Type} (start count : ℕ) (body : ℕ → M α) : M (List α) :=
  match count with
  | 0 => pure []
  | n + 1 => do
    let x ← body start
    let xs ← collect (start + 1) n body
    pure (x :: xs)

/-- The requests queued on one client: the client sends them one at a time in
the order of the queue.  The first rejection is thrown, and the requests
queued behind it are not answered any more. -/
def sendAll {α : Type} (send : α → M Unit) : List α → M Unit
  | [] => pure ()
  | x :: xs => do
    send x
    sendAll send xs

/-- The loop that queues a request for every `i` without awaiting, followed
by `await Promise.all`: the loop evaluates the arguments of all the requests
(`prepare`) before any of them is answered; the await ends when all are
answered, or throws the first rejection. -/
def fanOut {α : Type} (start count : ℕ) (prepare : ℕ → M α) (send : α → M Unit) :
    M Unit := do
  let requests ← collect start count prepare
  sendAll send requests

/-- A reading of the clock (`new Date()`). -/
def clock (env : Env) : M ℕ := fun w => (.ok (env.now w.calls), w)

/-- Ghost bracket around a phase: marks its start and, when it throws, its
failure. -/
def phase {α : Type} (p : Phase) (body : M α) : M α := fun w =>
  match body { w with trace := w.trace ++ [.phase p] } with
  | (.ok a, w1) => (.ok a, w1)
  | (.error e, w1) => (.error e, { w1 with trace := w1.trace ++ [.phaseFailed p] })

/-- The statement `try { body } catch (error) { handler(error) } finally
{ cleanup }`. -/
def tryCatchFinally (body : M Unit) (handler : Err → M Unit) (cleanup : M Unit) :
    M Unit := fun w =>
  match body w with
  | (.ok (), w1) => cleanup w1
  | (.error e, w1) =>
    match handler e w1 with
    | (.ok (), w2) => cleanup w2
    | (.error e2, w2) =>
      match cleanup w2 with
      | (.ok (), w3) => (.error e2, w3)
      | (.error e3, w3) => (.error e3, w3)

/-! ## The functions of `src/index.js` -/

/-- The function `initPostgres`. -/
def initPostgres (env : Env) : M Unit :=
  phase .resetRelational do
    plainCall env .pgConnect
    pgCall env .pgReset fun db =>
      match resetScript db with
      | .ok db1 => (.ok (), db1)
      | .error e => (.error e, db)
    emit (.consoleLog "PostgreSQL initialized.")

/-- The function `initMongo`. -/
def initMongo (env : Env) : M Unit :=
  phase .resetDocument do
    plainCall env .mongoConnect
    mongoCall env (.mongoDeleteMany .customers) fun db => { db with customers := [] }
    mongoCall env (.mongoDeleteMany .menu) fun db => { db with menu := [] }
    mongoCall env (.mongoDeleteMany .orders) fun db => { db with orders := [] }
    emit (.consoleLog "MongoDB initialized.")

/-- The first loop of `populatePostgres` and its `Promise.all`: 50 customers. -/
def seedCustomers (env : Env) : M Unit :=
  fanOut 1 50
    (fun i => do
      let r ← random env
      pure (customerName i, randomPhone r))
    (fun args => pgCall env .pgInsertCustomer fun db =>
      insertCustomer db (some args.1) (some args.2))

/-- The second loop of `populatePostgres`: 20 tables, all `free`. -/
def seedTables (env : Env) : M Unit :=
  forLoop 1 20 fun i =>
    pgCall env .pgInsertTable fun db => insertTable db (some (i : ℤ)) "free"

/-- The third loop of `populatePostgres` and its `Promise.all`: 30 products. -/
def seedProducts (env : Env) : M Unit :=
  fanOut 1 30
    (fun i => do
      let r1 ← random env
      let category := pickCategory r1
      let r2 ← random env
      pure (productName i, category, randomPrice r2))
    (fun args => pgCall env .pgInsertProduct fun db =>
      insertProduct db (some args.1) args.2.1 (some args.2.2))

/-- The inner loop of `populatePostgres`: the 5 items of one order. -/
def seedOrderItems (env : Env) (orderId : ℤ) : M Unit :=
  forLoop 1 5 fun _ => do
    let r1 ← random env
    let r2 ← random env
    pgCall env .pgInsertOrderItem fun db =>
      insertOrderItem db (some orderId) (some (randomProductId r1)) (some (randomQuantity r2))

/-- The last loop of `populatePostgres`: 100 orders with their items. -/
def seedOrders (env : Env) : M Unit :=
  forLoop 1 100 fun _ => do
    let r1 ← random env
    let customerId := randomCustomerId r1
    let r2 ← random env
    let tableId := randomTableId r2
    let orderId ← storeCall env .pgInsertOrder fun w =>
      let (r, db) := insertOrder w.pg (some customerId) (some tableId) (env.now w.calls)
      (r, { w with pg := db })
    seedOrderItems env orderId

/-- The function `populatePostgres`. -/
def populatePostgres (env : Env) : M Unit :=
  phase .populateRelational do
    seedCustomers env
    seedTables env
    seedProducts env
    seedOrders env
    emit (.consoleLog "PostgreSQL insert Query Time:")

/-- The loop of `populateMongo` that fills `customerDocs`. -/
def customerDocs (env : Env) : M (List CustomerDoc) :=
  collect 1 50 fun i => do
    let r ← random env
    pure { name := customerName i, phone := randomPhone r }

/-- The loop of `populateMongo` that fills `menuDocs`. -/
def menuDocs (env : Env) : M (List MenuDoc) :=
  collect 1 30 fun i => do
    let r1 ← random env
    let r2 ← random env
    pure { name := productName i, category := pickCategory r1, price := randomPrice r2 }

/-- Building one order document of `populateMongo`: the object literal, then
the inner loop that pushes 5 items. -/
def buildOrder (env : Env) : M OrderDoc := do
  let r1 ← random env
  let r2 ← random env
  let date ← clock env
  let items ← collect 1 5 fun _ => do
    let r3 ← random env
    let r4 ← random env
    pure { product := productName (randomProductId r3), quantity := randomQuantity r4 }
  pure
    { customer := customerName (randomCustomerId r1)
      table := randomTableId r2
      order_date := date
      items := items }

/-- The function `populateMongo`. -/
def populateMongo (env : Env) : M Unit :=
  phase .populateDocument do
    let cdocs ← customerDocs env
    mongoCall env (.mongoInsertMany .customers) fun db =>
      { db with customers := db.customers ++ cdocs }
    let mdocs ← menuDocs env
    mongoCall env (.mongoInsertMany .menu) fun db => { db with menu := db.menu ++ mdocs }
    forLoop 1 100 fun _ => do
      let order ← buildOrder env
      mongoCall env (.mongoInsertOne .orders) fun db =>
        { db with orders := db.orders ++ [order] }
    emit (.consoleLog "MongoDB insert Query Time:")

/-- The relational read of `testPerformance`: the join, fully fetched. -/
def relationalRead (env : Env) : M (List JoinRow) :=
  phase .relationalRead
    (pgCall env .pgSelect fun db => (selectJoin db, db))

/-- The document read of `testPerformance`: `find({}).toArray()` on `orders`. -/
def documentRead (env : Env) : M (List OrderDoc) :=
  phase .documentRead
    (storeCall env (.mongoFind .orders) fun w => (.ok w.mongo.orders, w))

/-- The function `testPerformance`. -/
def testPerformance (env : Env) : M Unit := do
  let _ ← relationalRead env
  let _ ← documentRead env
  emit (.consoleLog "PostgreSQL select Query Time:")
  emit (.consoleLog "MongoDB find Query Time:")

/-- The `finally` block of `main`. -/
def teardown (env : Env) : M Unit := do
  settledCall .pgEnd
  plainCall env .mongoClose

/-- The `try` block of `main`. -/
def phases (env : Env) : M Unit := do
  initPostgres env
  initMongo env
  populatePostgres env
  populateMongo env
  testPerformance env

/-- The function `main`. -/
def main (env : Env) : M Unit :=
  tryCatchFinally (phases env) (fun e => emit (.consoleError e)) (teardown env)

/-- The state a run starts from: the stores as they are, nothing done yet. -/
def start (pg : PgDb) (mongo : MongoDb) : World :=
  { pg := pg, mongo := mongo, calls := 0, draws := 0, trace := [] }

/-- A database in which none of the five relations exists. -/
def noSchema : PgDb := ⟨none, none, none, none, none⟩

/-- Three empty collections. -/
def noDocuments : MongoDb := ⟨[], [], []⟩

/-! ## Specification vocabulary -/

/-- Total correctness of an action: from a state satisfying `P` it ends
normally, in a state and with a value satisfying `Q`. -/
def Triple {α : Type} (P : World → Prop) (m : M α) (Q : α → World → Prop) : Prop :=
  ∀ w, P w → ∃ a w1, m w = (.ok a, w1) ∧ Q a w1

/-- An order document as `buildOrder` makes it from draws of `env`. -/
def GeneratedOrder (env : Env) (o : OrderDoc) : Prop :=
  (∃ k, o.customer = customerName (randomCustomerId (env.random k))) ∧
  (∃ k, o.table = randomTableId (env.random k)) ∧
  o.items.length = 5 ∧
  ∀ it ∈ o.items, (∃ k, it.product = productName (randomProductId (env.random k))) ∧
    ∃ k, it.quantity = randomQuantity (env.random k)

/-- The customer document the loop makes in round `i`. -/
def GeneratedCustomer (env : Env) (i : ℕ) (d : CustomerDoc) : Prop :=
  d.name = customerName i ∧ ∃ k, d.phone = randomPhone (env.random k)

/-- The menu document the loop makes in round `i`. -/
def GeneratedMenu (env : Env) (i : ℕ) (d : MenuDoc) : Prop :=
  d.name = productName i ∧ (∃ k, d.category = pickCategory (env.random k)) ∧
    ∃ k, d.price = randomPrice (env.random k)

/-- The document store as `populateMongo` leaves it. -/
structure SeededDocs (env : Env) (db : MongoDb) : Prop where
  customers : List.Forall₂ (GeneratedCustomer env) (List.range' 1 50) db.customers
  menu : List.Forall₂ (GeneratedMenu env) (List.range' 1 30) db.menu
  orders_length : db.orders.length = 100
  orders : ∀ o ∈ db.orders, GeneratedOrder env o

/-- The events that show the control flow of `main`: phase marks, the error
the `catch` clause prints, and the two calls of the `finally` block. -/
def Event.isControl : Event → Bool
  | .phase _ => true
  | .phaseFailed _ => true
  | .consoleError _ => true
  | .call .pgEnd _ => true
  | .call .mongoClose _ => true
  | _ => false

/-- The control events of a trace, in order. -/
def controlOf (t : List Event) : List Event := t.filter Event.isControl

/-- An action that leaves no control event, whether it ends normally or not. -/
def Quiet {α : Type} (m : M α) : Prop :=
  ∀ w, controlOf (m w).2.trace = controlOf w.trace

/-- An action that goes through the phases `ps` in order: either all of them
start and none fails, or the action throws out of one of them, after which
none of the later ones starts. -/
def RunsPhases {α : Type} (ps : List Phase) (m : M α) : Prop :=
  ∀ w,
    (∃ a w1, m w = (.ok a, w1) ∧
      controlOf w1.trace = controlOf w.trace ++ ps.map Event.phase) ∨
    (∃ e w1 done p rest, m w = (.error e, w1) ∧ ps = done ++ p :: rest ∧
      controlOf w1.trace =
        controlOf w.trace ++ (done ++ [p]).map Event.phase ++ [Event.phaseFailed p])

/-- A run in which every draw is 1/2, no store call is rejected from outside
and the clock counts the calls. -/
def envHalf : Env := { random := fun _ => 1 / 2, fault := fun _ => false, now := fun k => k }

/-- A run in which every draw is 0 (the least value `Math.random()` can
return) and no store call is rejected from outside. -/
def envZero : Env := { random := fun _ => 0, fault := fun _ => false, now := fun k => k }

/-- A relational store left over from earlier use: one customer, the other
relations absent or with stale rows. -/
def stalePg : PgDb :=
  { customers := some ⟨[⟨7, "Old customer", none⟩], 8⟩
    tables := some ⟨[⟨3, 3, "occupied"⟩], 4⟩
    products := none
    orders := some ⟨[⟨1, 7, 3, 0⟩], 2⟩
    order_items := none }

/-- A document store left over from earlier use. -/
def staleMongo : MongoDb :=
  { customers := [⟨"Old customer", "+380000000000"⟩]
    menu := [⟨"Old product", none, ⟨false, 100⟩⟩]
    orders := [⟨"Old customer", 3, 0, [⟨"Old product", 2⟩]⟩] }

/-- The state right after `initPostgres` and `initMongo`, when none of their
six store calls is rejected. -/
def afterReset : World :=
  { pg := freshSchema
    mongo := noDocuments
    calls := 6
    draws := 0
    trace :=
      [.phase .resetRelational, .call .pgConnect true, .call .pgReset true,
        .consoleLog "PostgreSQL initialized.", .phase .resetDocument,
        .call .mongoConnect true, .call (.mongoDeleteMany .customers) true,
        .call (.mongoDeleteMany .menu) true, .call (.mongoDeleteMany .orders) true,
        .consoleLog "MongoDB initialized."] }

/-- A relation holding exactly the keys `1 .. n` in order, with its sequence
at `n + 1` and every row satisfying `R`. -/
def Keyed {ρ : Type} (key : ρ → ℤ) (R : ρ → Prop) (n : ℕ) (rel : Relation ρ) : Prop :=
  rel.nextId = (n : ℤ) + 1 ∧
  rel.rows.map key = (List.range' 1 n).map (fun i : ℕ => (i : ℤ)) ∧
  ∀ x ∈ rel.rows, R x

/-- A table row as the second loop makes it. -/
def GeneratedTable (t : CafeTable) : Prop := t.number = t.id ∧ t.status = "free"

/-- A product row as the third loop makes it from draws in `[0, 1)`. -/
def GeneratedProduct (p : Product) : Prop :=
  p.name = productName p.id ∧
  (p.category = "Drinks" ∨ p.category = "Snacks" ∨ p.category = "Meals") ∧
  p.price.negative = false ∧ p.price.hundredths ≤ 5000

/-- The relational store after the first three loops of `populatePostgres`:
`nc` customers, `nt` tables, `np` products. -/
def SeededBase (nc nt np : ℕ) (db : PgDb) : Prop :=
  ∃ cs ts ps, db.customers = some cs ∧ db.tables = some ts ∧ db.products = some ps ∧
    Keyed Customer.id (fun c => c.name = customerName c.id) nc cs ∧
    Keyed CafeTable.id GeneratedTable nt ts ∧
    Keyed Product.id GeneratedProduct np ps

/-- An order row whose references lie in the seeded key ranges. -/
def GeneratedOrderRow (o : Order) : Prop :=
  (1 ≤ o.customer_id ∧ o.customer_id ≤ 50) ∧ (1 ≤ o.table_id ∧ o.table_id ≤ 20)

/-- The number of item rows that belong to the order `k`. -/
def itemsOf (rows : List OrderItem) (k : ℤ) : ℕ :=
  rows.countP fun it => decide (it.order_id = k)

/-- The relation `order_items` while the orders are seeded: `full` orders have
their 5 items, the order `full + 1` has `cur` items so far, and every item
refers to a seeded product with a quantity in `[1, 5]`. -/
def ItemsInv (full cur : ℕ) (rel : Relation OrderItem) : Prop :=
  rel.rows.length = 5 * full + cur ∧
  (∀ it ∈ rel.rows, (1 ≤ it.order_id ∧ it.order_id ≤ (full : ℤ) + 1) ∧
    (1 ≤ it.product_id ∧ it.product_id ≤ 30) ∧ (1 ≤ it.quantity ∧ it.quantity ≤ 5)) ∧
  (∀ k : ℤ, 1 ≤ k → k ≤ full → itemsOf rel.rows k = 5) ∧
  itemsOf rel.rows ((full : ℤ) + 1) = cur

/-- The relational store while the orders are seeded: the three base relations
are complete, `no` orders are inserted, `full` of them with all their items. -/
def OrdersInv (no full cur : ℕ) (db : PgDb) : Prop :=
  SeededBase 50 20 30 db ∧
  ∃ os is, db.orders = some os ∧ db.order_items = some is ∧
    Keyed Order.id GeneratedOrderRow no os ∧ ItemsInv full cur is

/-- An action that preserves the property `J` of the two stores whether it
ends normally or throws, and whose value, when it ends normally, satisfies `R`. -/
def Keeps {α : Type} (J : PgDb → MongoDb → Prop) (m : M α) (R : α → Prop) : Prop :=
  ∀ w, J w.pg w.mongo → J (m w).2.pg (m w).2.mongo ∧ ∀ a, (m w).1 = .ok a → R a

/-- A stored price that `toFixed(2)` made from a value in `[0, 50)`. -/
def GoodPrice (p : Fixed2) : Prop := p.negative = false ∧ p.hundredths ≤ 5000

/-- A category of the array `categories`. -/
def GoodCategory (c : String) : Prop := c = "Drinks" ∨ c = "Snacks" ∨ c = "Meals"

/-- Every product row and every menu document has a category of the array
`categories` and a price in `[0.00, 50.00]`. -/
def ProductsOk (db : PgDb) (m : MongoDb) : Prop :=
  (∀ p ∈ rowsOf db.products, GoodCategory p.category ∧ GoodPrice p.price) ∧
  ∀ d ∈ m.menu, (∃ c, d.category = some c ∧ GoodCategory c) ∧ GoodPrice d.price

/-! # Properties -/

/-! ## Arithmetic of the generated values -/

theorem floor_le_roundHalfEven (y : ℚ) : Int.floor y ≤ roundHalfEven y := by
  unfold roundHalfEven
  split_ifs <;> omega

theorem roundHalfEven_le_of_lt_half (y : ℚ) (M : ℤ) (h : y < (M : ℚ) + 1 / 2) :
    roundHalfEven y ≤ M := by
  have hfl : Int.floor y ≤ M := by
    have : Int.floor y < M + 1 := Int.floor_lt.mpr (by push_cast; linarith)
    omega
  rcases hfl.lt_or_eq with hlt | heq
  · have := floor_le_roundHalfEven y
    unfold roundHalfEven
    split_ifs <;> omega
  · have hd : y - (Int.floor y : ℚ) < 1 / 2 := by rw [heq]; linarith
    unfold roundHalfEven
    rw [if_pos hd]
    exact hfl

theorem roundHalfEven_le_of_le (y : ℚ) (M : ℤ) (h : y ≤ (M : ℚ)) : roundHalfEven y ≤ M :=
  roundHalfEven_le_of_lt_half y M (by linarith)

theorem binary64_zero : binary64 0 = 0 := by simp [binary64]

theorem two_zpow_pos (e : ℤ) : (0 : ℚ) < (2 : ℚ) ^ e := zpow_pos (by norm_num) e

theorem binary64_of_pos {x : ℚ} (hx : 0 < x) :
    binary64 x = (roundHalfEven (x / (2 : ℚ) ^ ulpExponent x) : ℚ) * (2 : ℚ) ^ ulpExponent x := by
  unfold binary64
  rw [if_neg hx.ne', if_neg (not_lt.mpr hx.le)]

theorem binary64_nonneg {x : ℚ} (hx : 0 ≤ x) : 0 ≤ binary64 x := by
  rcases hx.eq_or_lt with rfl | hpos
  · rw [binary64_zero]
  · rw [binary64_of_pos hpos]
    have hy : (0 : ℚ) ≤ x / (2 : ℚ) ^ ulpExponent x := div_nonneg hx (two_zpow_pos _).le
    have h1 : (0 : ℤ) ≤ roundHalfEven (x / (2 : ℚ) ^ ulpExponent x) :=
      le_trans (Int.floor_nonneg.mpr hy) (floor_le_roundHalfEven _)
    exact mul_nonneg (by exact_mod_cast h1) (two_zpow_pos _).le

theorem log_bounds {x : ℚ} (hx : 0 < x) :
    (2 : ℚ) ^ Int.log 2 x ≤ x ∧ x < (2 : ℚ) ^ (Int.log 2 x + 1) := by
  have h1 := Int.zpow_log_le_self (b := 2) (r := x) (by norm_num) hx
  have h2 := Int.lt_zpow_succ_log_self (b := 2) (by norm_num) x
  exact ⟨by simpa using h1, by simpa using h2⟩

/-- A positive value that is at least the least subnormal rounds to a positive value. -/
theorem binary64_pos {x : ℚ} (hx : (2 : ℚ) ^ (-1074 : ℤ) ≤ x) : 0 < binary64 x := by
  have hpos : 0 < x := lt_of_lt_of_le (two_zpow_pos _) hx
  rw [binary64_of_pos hpos]
  have hle : (2 : ℚ) ^ ulpExponent x ≤ x := by
    unfold ulpExponent
    rw [abs_of_pos hpos]
    rcases max_cases (Int.log 2 x - 52) (-1074) with ⟨h, -⟩ | ⟨h, -⟩
    · rw [h]
      refine le_trans (zpow_le_zpow_right₀ (by norm_num) (by omega)) (log_bounds hpos).1
    · rw [h]; exact hx
  have hy : (1 : ℚ) ≤ x / (2 : ℚ) ^ ulpExponent x := by
    rw [le_div_iff₀ (two_zpow_pos _)]
    simpa using hle
  have h1 : (1 : ℤ) ≤ roundHalfEven (x / (2 : ℚ) ^ ulpExponent x) :=
    le_trans (Int.le_floor.mpr (by exact_mod_cast hy)) (floor_le_roundHalfEven _)
  have h2 : (0 : ℚ) < (roundHalfEven (x / (2 : ℚ) ^ ulpExponent x) : ℚ) := by
    exact_mod_cast (by omega : (0 : ℤ) < roundHalfEven (x / (2 : ℚ) ^ ulpExponent x))
  exact mul_pos h2 (two_zpow_pos _)

/-- A binary64 value below 1 is at most `1 - 2^-53`, the largest one below 1. -/
theorem isBinary64_lt_one {r : ℚ} (hr : IsBinary64 r) (h1 : r < 1) :
    r ≤ 1 - (2 : ℚ) ^ (-53 : ℤ) := by
  obtain ⟨m, e, hm, he, -, rfl⟩ := hr
  have hmq : (m : ℚ) < 2 ^ 53 := by
    have : m < 2 ^ 53 := lt_of_le_of_lt (le_abs_self m) hm
    exact_mod_cast this
  have h53 : (2 : ℚ) ^ (-53 : ℤ) = 1 / 2 ^ 53 := by
    rw [zpow_neg, one_div]; norm_cast
  by_cases hcase : -53 ≤ e
  · obtain ⟨q, hq⟩ : ∃ q : ℕ, e + 53 = q := ⟨(e + 53).toNat, (Int.toNat_of_nonneg (by omega)).symm⟩
    have he2 : (2 : ℚ) ^ e = 2 ^ q / 2 ^ 53 := by
      have : e = (q : ℤ) - 53 := by omega
      rw [this, zpow_sub₀ (by norm_num), zpow_natCast]
      norm_cast
    rw [he2] at h1 ⊢
    have hlt : (m : ℚ) * 2 ^ q < 2 ^ 53 := by
      have := h1
      rw [← mul_div_assoc, div_lt_one (by positivity)] at this
      exact this
    have hint : m * 2 ^ q < 2 ^ 53 := by exact_mod_cast hlt
    have hle : m * 2 ^ q ≤ 2 ^ 53 - 1 := by omega
    have hleq : (m : ℚ) * 2 ^ q ≤ 2 ^ 53 - 1 := by exact_mod_cast hle
    rw [h53, ← mul_div_assoc, div_le_iff₀ (by positivity)]
    calc (m : ℚ) * 2 ^ q ≤ 2 ^ 53 - 1 := hleq
      _ = (1 - 1 / 2 ^ 53) * 2 ^ 53 := by norm_num
  · have he54 : (2 : ℚ) ^ e ≤ (2 : ℚ) ^ (-54 : ℤ) :=
      zpow_le_zpow_right₀ (by norm_num) (by omega)
    have h54 : (2 : ℚ) ^ (-54 : ℤ) = 1 / 2 ^ 54 := by
      rw [zpow_neg, one_div]; norm_cast
    have hpos := two_zpow_pos e
    have : (m : ℚ) * (2 : ℚ) ^ e ≤ 2 ^ 53 * (2 : ℚ) ^ (-54 : ℤ) := by
      rcases le_or_lt 0 (m : ℚ) with hm0 | hm0
      · exact mul_le_mul hmq.le he54 hpos.le (by positivity)
      · have : (m : ℚ) * (2 : ℚ) ^ e ≤ 0 := mul_nonpos_of_nonpos_of_nonneg hm0.le hpos.le
        exact le_trans this (by positivity)
    rw [h54] at this
    rw [h53]
    have h2 : (2 : ℚ) ^ 53 * (1 / 2 ^ 54) = 1 / 2 := by norm_num
    rw [h2] at this
    have h3 : (1 : ℚ) / 2 ≤ 1 - 1 / 2 ^ 53 := by norm_num
    linarith

/-- A positive binary64 value is at least the least subnormal `2^-1074`. -/
theorem isBinary64_pos {r : ℚ} (hr : IsBinary64 r) (h0 : 0 < r) :
    (2 : ℚ) ^ (-1074 : ℤ) ≤ r := by
  obtain ⟨m, e, -, he, -, rfl⟩ := hr
  have hpos := two_zpow_pos e
  have hm : (0 : ℚ) < m := by
    by_contra hneg
    push_neg at hneg
    have : (m : ℚ) * (2 : ℚ) ^ e ≤ 0 := mul_nonpos_of_nonpos_of_nonneg hneg hpos.le
    linarith
  have hm1 : (1 : ℚ) ≤ m := by
    have : (0 : ℤ) < m := by exact_mod_cast hm
    exact_mod_cast (by omega : (1 : ℤ) ≤ m)
  calc (2 : ℚ) ^ (-1074 : ℤ) ≤ (2 : ℚ) ^ e := zpow_le_zpow_right₀ (by norm_num) he
    _ = 1 * (2 : ℚ) ^ e := (one_mul _).symm
    _ ≤ (m : ℚ) * (2 : ℚ) ^ e := mul_le_mul_of_nonneg_right hm1 hpos.le

/-- The binary64 product of a draw in `[0, 1)` with an integer `N` that is not a
power of two stays below `N`: the exact product is at most `N - N * 2^-53`,
more than half a unit in the last place under `N`. -/
theorem binary64_mul_lt {r : ℚ} (hr : IsBinary64 r) (h0 : 0 ≤ r) (h1 : r < 1) (N k : ℕ)
    (hk : 2 ^ k < N) (hk2 : N < 2 ^ (k + 1)) (hk52 : k ≤ 52) :
    binary64 (r * (N : ℚ)) < (N : ℚ) := by
  have hNpos : (0 : ℚ) < N := by
    have : 0 < N := lt_of_le_of_lt (Nat.zero_le _) hk
    exact_mod_cast this
  have hKN : (2 : ℚ) ^ k < N := by exact_mod_cast hk
  have hNK : (N : ℚ) < 2 ^ (k + 1) := by exact_mod_cast hk2
  rcases (mul_nonneg h0 hNpos.le).eq_or_lt with hx0 | hxpos
  · rw [← hx0, binary64_zero]; exact hNpos
  have hr1 := isBinary64_lt_one hr h1
  have h53 : (2 : ℚ) ^ (-53 : ℤ) = 1 / 2 ^ 53 := by
    rw [zpow_neg, one_div]; norm_cast
  rw [h53] at hr1
  have hxN : r * (N : ℚ) ≤ N - N / 2 ^ 53 := by
    have := mul_le_mul_of_nonneg_right hr1 hNpos.le
    calc r * (N : ℚ) ≤ (1 - 1 / 2 ^ 53) * N := this
      _ = N - N / 2 ^ 53 := by ring
  obtain ⟨hlo, hhi⟩ := log_bounds hxpos
  have hj : Int.log 2 (r * (N : ℚ)) ≤ k := by
    have hlt : r * (N : ℚ) < ((2 : ℕ) : ℚ) ^ ((k : ℤ) + 1) := by
      have : r * (N : ℚ) < (N : ℚ) := by nlinarith
      have h2 : ((2 : ℕ) : ℚ) ^ ((k : ℤ) + 1) = (2 : ℚ) ^ (k + 1) := by
        rw [show ((k : ℤ) + 1) = ((k + 1 : ℕ) : ℤ) by push_cast; ring, zpow_natCast]
        norm_cast
      rw [h2]; linarith
    have := (Int.lt_zpow_iff_log_lt (b := 2) (by norm_num) hxpos).mp hlt
    omega
  rw [binary64_of_pos hxpos]
  have he : ulpExponent (r * (N : ℚ)) = max (Int.log 2 (r * (N : ℚ)) - 52) (-1074) := by
    unfold ulpExponent; rw [abs_of_pos hxpos]
  rcases hj.lt_or_eq with hjlt | hjeq
  · -- the product lies in a binade below that of `N`
    have hek : ulpExponent (r * (N : ℚ)) ≤ k := by
      rw [he]; exact max_le (by omega) (by omega)
    obtain ⟨q, hq⟩ : ∃ q : ℕ, (k : ℤ) - ulpExponent (r * (N : ℚ)) = q :=
      ⟨_, (Int.toNat_of_nonneg (by omega)).symm⟩
    have hpow : (2 : ℚ) ^ (k : ℤ) = (2 : ℚ) ^ q * (2 : ℚ) ^ ulpExponent (r * (N : ℚ)) := by
      rw [← zpow_natCast (2 : ℚ) q, ← zpow_add₀ (by norm_num)]
      congr 1; omega
    have hxk : r * (N : ℚ) ≤ (2 : ℚ) ^ (k : ℤ) :=
      le_trans hhi.le (zpow_le_zpow_right₀ (by norm_num) (by omega))
    have hy : r * (N : ℚ) / (2 : ℚ) ^ ulpExponent (r * (N : ℚ)) ≤ (((2 : ℤ) ^ q : ℤ) : ℚ) := by
      rw [div_le_iff₀ (two_zpow_pos _)]
      push_cast
      rw [← hpow]; exact hxk
    have hrne := roundHalfEven_le_of_le _ _ hy
    have hrneq : (roundHalfEven (r * (N : ℚ) / (2 : ℚ) ^ ulpExponent (r * (N : ℚ))) : ℚ) ≤
        (2 : ℚ) ^ q := by exact_mod_cast hrne
    calc (roundHalfEven (r * (N : ℚ) / (2 : ℚ) ^ ulpExponent (r * (N : ℚ))) : ℚ) *
          (2 : ℚ) ^ ulpExponent (r * (N : ℚ))
        ≤ (2 : ℚ) ^ q * (2 : ℚ) ^ ulpExponent (r * (N : ℚ)) :=
          mul_le_mul_of_nonneg_right hrneq (two_zpow_pos _).le
      _ = (2 : ℚ) ^ (k : ℤ) := hpow.symm
      _ = (2 : ℚ) ^ k := zpow_natCast _ _
      _ < N := hKN
  · -- the product lies in the binade of `N`
    obtain ⟨p, hp⟩ : ∃ p : ℕ, k + p = 52 := ⟨52 - k, by omega⟩
    have hee : ulpExponent (r * (N : ℚ)) = -(p : ℤ) := by
      rw [he, hjeq]
      rw [max_eq_left (by omega)]
      omega
    have h2e : (2 : ℚ) ^ ulpExponent (r * (N : ℚ)) = 1 / 2 ^ p := by
      rw [hee, zpow_neg, zpow_natCast, one_div]
    have hPK : (2 : ℚ) ^ 53 = 2 * (2 : ℚ) ^ p * (2 : ℚ) ^ k := by
      rw [show (53 : ℕ) = 1 + p + k by omega, pow_add, pow_add, pow_one]
    have hPpos : (0 : ℚ) < (2 : ℚ) ^ p := by positivity
    have hKpos : (0 : ℚ) < (2 : ℚ) ^ k := by positivity
    have hy : r * (N : ℚ) / (2 : ℚ) ^ ulpExponent (r * (N : ℚ)) <
        (((N : ℤ) * 2 ^ p - 1 : ℤ) : ℚ) + 1 / 2 := by
      rw [h2e, div_div_eq_mul_div, div_one]
      push_cast
      have hhalf : (1 : ℚ) / 2 < N / (2 * (2 : ℚ) ^ k) := by
        rw [lt_div_iff₀ (by positivity)]
        linarith
      have hmul : r * (N : ℚ) * 2 ^ p ≤ (N - N / 2 ^ 53) * 2 ^ p :=
        mul_le_mul_of_nonneg_right hxN hPpos.le
      have hsimp : ((N : ℚ) - N / 2 ^ 53) * 2 ^ p = N * 2 ^ p - N / (2 * (2 : ℚ) ^ k) := by
        rw [hPK]
        field_simp
        ring
      linarith
    have hrne := roundHalfEven_le_of_lt_half _ _ hy
    have hrneq : (roundHalfEven (r * (N : ℚ) / (2 : ℚ) ^ ulpExponent (r * (N : ℚ))) : ℚ) ≤
        (N : ℚ) * 2 ^ p - 1 := by exact_mod_cast hrne
    calc (roundHalfEven (r * (N : ℚ) / (2 : ℚ) ^ ulpExponent (r * (N : ℚ))) : ℚ) *
          (2 : ℚ) ^ ulpExponent (r * (N : ℚ))
        ≤ ((N : ℚ) * 2 ^ p - 1) * (2 : ℚ) ^ ulpExponent (r * (N : ℚ)) :=
          mul_le_mul_of_nonneg_right hrneq (two_zpow_pos _).le
      _ = N - 1 / 2 ^ p := by rw [h2e]; field_simp
      _ < N := by
        have : (0 : ℚ) < 1 / 2 ^ p := by positivity
        linarith

theorem binary64_eq_of_round {x : ℚ} (e m : ℤ) (hlo : (2 : ℚ) ^ (e + 52) ≤ x)
    (hhi : x < (2 : ℚ) ^ (e + 53)) (he : -1074 ≤ e)
    (hround : roundHalfEven (x / (2 : ℚ) ^ e) = m) : binary64 x = (m : ℚ) * (2 : ℚ) ^ e := by
  have hx : 0 < x := lt_of_lt_of_le (two_zpow_pos _) hlo
  have hlog : Int.log 2 x = e + 52 := by
    apply le_antisymm
    · have := (Int.lt_zpow_iff_log_lt (b := 2) (by norm_num) hx).mp
        (by rw [show e + 52 + 1 = e + 53 by ring]; simpa using hhi :
          x < ((2 : ℕ) : ℚ) ^ (e + 52 + 1))
      omega
    · exact (Int.zpow_le_iff_le_log (b := 2) (by norm_num) hx).mp (by simpa using hlo)
  have hu : ulpExponent x = e := by
    unfold ulpExponent
    rw [abs_of_pos hx, hlog]
    rw [max_eq_left (by omega)]
    omega
  rw [binary64_of_pos hx, hu, hround]

theorem roundHalfEven_eq_of_floor {y : ℚ} (f : ℤ) (hf : Int.floor y = f) :
    roundHalfEven y =
      if y - (f : ℚ) < 1 / 2 then f
      else if 1 / 2 < y - (f : ℚ) then f + 1
      else if f % 2 = 0 then f else f + 1 := by
  unfold roundHalfEven
  rw [hf]

theorem jsMul_zero (y : ℚ) : jsMul 0 y = 0 := by simp [jsMul, binary64_zero]

theorem jsMul_nonneg {r : ℚ} (h : IsDraw r) (N : ℕ) : 0 ≤ jsMul r N :=
  binary64_nonneg (mul_nonneg h.2.1 (Nat.cast_nonneg N))

theorem jsMul_lt {r : ℚ} (h : IsDraw r) (N k : ℕ) (hk : 2 ^ k < N) (hk2 : N < 2 ^ (k + 1))
    (hk52 : k ≤ 52) : jsMul r N < N :=
  binary64_mul_lt h.1 h.2.1 h.2.2 N k hk hk2 hk52

theorem jsMul_pos {r : ℚ} (h : IsDraw r) (h0 : 0 < r) (N : ℕ) (hN : 0 < N) :
    0 < jsMul r N := by
  have hN1 : (1 : ℚ) ≤ N := by exact_mod_cast hN
  refine binary64_pos (le_trans (isBinary64_pos h.1 h0) ?_)
  nlinarith

theorem mathCeil_range (r : ℚ) (N k : ℕ) (h : IsDraw r) (h0 : 0 < r) (hk : 2 ^ k < N)
    (hk2 : N < 2 ^ (k + 1)) (hk52 : k ≤ 52) :
    1 ≤ mathCeil (jsMul r N) ∧ mathCeil (jsMul r N) ≤ N := by
  have hN : 0 < N := lt_of_le_of_lt (Nat.zero_le _) hk
  constructor
  · have : 0 < mathCeil (jsMul r N) := Int.ceil_pos.mpr (jsMul_pos h h0 N hN)
    omega
  · apply Int.ceil_le.mpr
    have := jsMul_lt h N k hk hk2 hk52
    exact_mod_cast this.le

theorem mathFloor_range (r : ℚ) (N k : ℕ) (h : IsDraw r) (hk : 2 ^ k < N)
    (hk2 : N < 2 ^ (k + 1)) (hk52 : k ≤ 52) :
    0 ≤ mathFloor (jsMul r N) ∧ mathFloor (jsMul r N) < N := by
  constructor
  · exact Int.floor_nonneg.mpr (jsMul_nonneg h N)
  · apply Int.floor_lt.mpr
    have := jsMul_lt h N k hk hk2 hk52
    exact_mod_cast this

theorem isDraw_zero : IsDraw 0 :=
  ⟨⟨0, 0, by norm_num, by norm_num, by norm_num, by norm_num⟩, le_refl 0, by norm_num⟩

theorem isDraw_half : IsDraw (1 / 2) :=
  ⟨⟨1, -1, by norm_num, by norm_num, by norm_num, by norm_num⟩, by norm_num, by norm_num⟩

theorem digitChar_isDigit (k : ℕ) (hk : k < 10) : (Nat.digitChar k).isDigit = true := by
  interval_cases k <;> decide

theorem toDigitsCore_isDigit (fuel : ℕ) : ∀ (n : ℕ) (ds : List Char),
    (∀ c ∈ ds, c.isDigit = true) → ∀ c ∈ Nat.toDigitsCore 10 fuel n ds, c.isDigit = true := by
  induction fuel with
  | zero => intro n ds h; simpa [Nat.toDigitsCore] using h
  | succ f ih =>
    intro n ds h
    have hd : (Nat.digitChar (n % 10)).isDigit = true :=
      digitChar_isDigit _ (Nat.mod_lt _ (by norm_num))
    have hcons : ∀ c ∈ Nat.digitChar (n % 10) :: ds, c.isDigit = true := by
      intro c hc
      rcases List.mem_cons.mp hc with rfl | hc
      · exact hd
      · exact h c hc
    simp only [Nat.toDigitsCore]
    split
    · exact hcons
    · exact ih _ _ hcons

theorem toDigits_isDigit (n : ℕ) : ∀ c ∈ Nat.toDigits 10 n, c.isDigit = true :=
  toDigitsCore_isDigit _ _ _ (by simp)

theorem toDigitsCore_ne_nil (fuel n : ℕ) (ds : List Char) (h : ds ≠ []) :
    Nat.toDigitsCore 10 fuel n ds ≠ [] := by
  induction fuel generalizing n ds with
  | zero => simpa [Nat.toDigitsCore] using h
  | succ f ih =>
    simp only [Nat.toDigitsCore]
    split
    · simp
    · exact ih _ _ (by simp)

theorem toDigits_ne_nil (n : ℕ) : Nat.toDigits 10 n ≠ [] := by
  unfold Nat.toDigits
  simp only [Nat.toDigitsCore]
  split
  · simp
  · exact toDigitsCore_ne_nil _ _ _ (by simp)

theorem randomPrice_hundredths (r : ℚ) (h : IsDraw r) :
    (randomPrice r).negative = false ∧ (randomPrice r).hundredths ≤ 5000 := by
  have hx : (0 : ℚ) ≤ jsMul r 50 := by simpa using jsMul_nonneg h 50
  have hlt : jsMul r 50 < 50 := by
    simpa using jsMul_lt h 50 5 (by norm_num) (by norm_num) (by norm_num)
  constructor
  · simp [randomPrice, toFixed2, hx]
  · simp only [randomPrice, toFixed2, abs_of_nonneg hx]
    have : Int.floor (jsMul r 50 * 100 + 1 / 2) ≤ 5000 := by
      have : Int.floor (jsMul r 50 * 100 + 1 / 2) < 5001 := by
        apply Int.floor_lt.mpr
        push_cast
        linarith
      omega
    omega

/-! ## Rules for actions -/

theorem bind_apply {α β : Type} (m : M α) (f : α → M β) (w : World) :
    (m >>= f) w = match m w with
      | (.ok a, w1) => f a w1
      | (.error e, w1) => (.error e, w1) := rfl

theorem triple_bind {α β : Type} {P : World → Prop} {m : M α} {Q : α → World → Prop}
    {f : α → M β} {R : β → World → Prop}
    (hm : Triple P m Q) (hf : ∀ a, Triple (Q a) (f a) R) : Triple P (m >>= f) R := by
  intro w hw
  obtain ⟨a, w1, h1, hq⟩ := hm w hw
  obtain ⟨b, w2, h2, hr⟩ := hf a w1 hq
  exact ⟨b, w2, by rw [bind_apply, h1]; exact h2, hr⟩

theorem triple_pure {α : Type} {P : World → Prop} {Q : α → World → Prop} (a : α)
    (h : ∀ w, P w → Q a w) : Triple P (pure a : M α) Q :=
  fun w hw => ⟨a, w, rfl, h w hw⟩

theorem triple_conseq {α : Type} {P P1 : World → Prop} {m : M α} {Q Q1 : α → World → Prop}
    (h : Triple P m Q) (hp : ∀ w, P1 w → P w) (hq : ∀ a w, Q a w → Q1 a w) :
    Triple P1 m Q1 := by
  intro w hw
  obtain ⟨a, w1, h1, hq1⟩ := h w (hp w hw)
  exact ⟨a, w1, h1, hq a w1 hq1⟩

theorem triple_forLoop (n : ℕ) : ∀ (start : ℕ) (body : ℕ → M Unit) (I : ℕ → World → Prop),
    (∀ i, i < n → Triple (I i) (body (start + i)) (fun _ => I (i + 1))) →
    Triple (I 0) (forLoop start n body) (fun _ => I n) := by
  induction n with
  | zero => intro start body I _; exact triple_pure () (fun _ h => h)
  | succ k ih =>
    intro start body I h
    unfold Lab2DB.forLoop
    refine triple_bind (Q := fun _ => I 1) ?_ (fun _ => ?_)
    · simpa using h 0 (Nat.succ_pos k)
    · refine ih (start + 1) body (fun i => I (i + 1)) (fun i hi => ?_)
      have := h (i + 1) (Nat.succ_lt_succ hi)
      rwa [show start + (i + 1) = start + 1 + i by omega] at this

theorem triple_collect {α : Type} (R : ℕ → α → Prop) (n : ℕ) :
    ∀ (start : ℕ) (body : ℕ → M α) (I : ℕ → World → Prop),
    (∀ i, i < n → Triple (I i) (body (start + i)) (fun a w => R (start + i) a ∧ I (i + 1) w)) →
    Triple (I 0) (collect start n body)
      (fun xs w => List.Forall₂ R (List.range' start n) xs ∧ I n w) := by
  induction n with
  | zero =>
    intro start body I _
    exact triple_pure [] (fun _ h => ⟨by simp, h⟩)
  | succ k ih =>
    intro start body I h
    unfold Lab2DB.collect
    refine triple_bind (Q := fun a w => R start a ∧ I 1 w) ?_ (fun a => ?_)
    · simpa using h 0 (Nat.succ_pos k)
    · have hrest := ih (start + 1) body (fun i => I (i + 1)) (fun i hi => by
        have := h (i + 1) (Nat.succ_lt_succ hi)
        rwa [show start + (i + 1) = start + 1 + i by omega] at this)
      intro w hw
      obtain ⟨xs, w2, h2, hxs, hI⟩ := hrest w hw.2
      refine ⟨a :: xs, w2, ?_, ?_, hI⟩
      · rw [bind_apply, h2]; rfl
      · rw [List.range'_succ]
        exact List.Forall₂.cons hw.1 hxs

theorem triple_sendAll {α : Type} (R : ℕ → α → Prop) (send : α → M Unit) :
    ∀ (xs : List α) (start : ℕ) (I : ℕ → World → Prop),
    List.Forall₂ R (List.range' start xs.length) xs →
    (∀ i a, i < xs.length → R (start + i) a → Triple (I i) (send a) (fun _ => I (i + 1))) →
    Triple (I 0) (sendAll send xs) (fun _ => I xs.length) := by
  intro xs
  induction xs with
  | nil => intro start I _ _; exact triple_pure () (fun _ h => h)
  | cons x xs ih =>
    intro start I hR h
    rw [List.length_cons, List.range'_succ] at hR
    cases hR with
    | cons hx hxs =>
      unfold Lab2DB.sendAll
      refine triple_bind (Q := fun _ => I 1) ?_ (fun _ => ?_)
      · exact h 0 x (Nat.succ_pos _) (by simpa using hx)
      · refine ih (start + 1) (fun i => I (i + 1)) hxs (fun i a hi ha => ?_)
        refine h (i + 1) a (Nat.succ_lt_succ hi) ?_
        rwa [show start + (i + 1) = start + 1 + i by omega]

theorem triple_fanOut {α : Type} (R : ℕ → α → Prop) (n start : ℕ) (prepare : ℕ → M α)
    (send : α → M Unit) (P : World → Prop) (I : ℕ → World → Prop)
    (hprep : ∀ i, i < n → Triple P (prepare (start + i)) (fun a w => R (start + i) a ∧ P w))
    (h0 : ∀ w, P w → I 0 w)
    (hsend : ∀ i a, i < n → R (start + i) a → Triple (I i) (send a) (fun _ => I (i + 1))) :
    Triple P (fanOut start n prepare send) (fun _ => I n) := by
  unfold Lab2DB.fanOut
  refine triple_bind (triple_collect R n start prepare (fun _ => P) hprep) (fun xs => ?_)
  intro w hw
  have hlen : xs.length = n := by
    have := hw.1.length_eq
    simpa using this.symm
  subst hlen
  exact triple_sendAll R send xs start I hw.1 hsend w (h0 w hw.2)

theorem triple_random (env : Env) (P : World → Prop) (Q : ℚ → World → Prop)
    (h : ∀ w, P w → Q (env.random w.draws) { w with draws := w.draws + 1 }) :
    Triple P (random env) Q :=
  fun w hw => ⟨_, _, rfl, h w hw⟩

theorem triple_clock (env : Env) (P : World → Prop) (Q : ℕ → World → Prop)
    (h : ∀ w, P w → Q (env.now w.calls) w) : Triple P (clock env) Q :=
  fun w hw => ⟨_, _, rfl, h w hw⟩

theorem triple_emit (ev : Event) (P : World → Prop) (Q : Unit → World → Prop)
    (h : ∀ w, P w → Q () { w with trace := w.trace ++ [ev] }) : Triple P (emit ev) Q :=
  fun w hw => ⟨_, _, rfl, h w hw⟩

theorem triple_storeCall {α : Type} (env : Env) (hf : ∀ k, env.fault k = false) (c : Call)
    (op : World → Except Err α × World) (P : World → Prop) (Q : α → World → Prop)
    (h : ∀ w, P w → ∃ a w2, op { w with calls := w.calls + 1 } = (.ok a, w2) ∧
      Q a { w2 with trace := w2.trace ++ [.call c true] }) :
    Triple P (storeCall env c op) Q := by
  intro w hw
  obtain ⟨a, w2, h2, hq⟩ := h w hw
  refine ⟨a, _, ?_, hq⟩
  simp [Lab2DB.storeCall, hf, h2]

theorem triple_mongoCall (env : Env) (hf : ∀ k, env.fault k = false) (c : Call)
    (upd : MongoDb → MongoDb) (P : World → Prop) (Q : Unit → World → Prop)
    (h : ∀ w, P w →
      Q () { w with calls := w.calls + 1, mongo := upd w.mongo,
                    trace := w.trace ++ [.call c true] }) :
    Triple P (mongoCall env c upd) Q :=
  triple_storeCall env hf c _ P Q (fun w hw => ⟨(), _, rfl, h w hw⟩)

theorem triple_phase {α : Type} (p : Phase) (P P1 : World → Prop) (m : M α)
    (Q : α → World → Prop) (h : Triple P m Q)
    (hp : ∀ w, P1 w → P { w with trace := w.trace ++ [.phase p] }) :
    Triple P1 (phase p m) Q := by
  intro w hw
  obtain ⟨a, w1, h1, hq⟩ := h _ (hp w hw)
  exact ⟨a, w1, by simp [Lab2DB.phase, h1], hq⟩

/-! ## Seeding the document store -/

theorem customerDocs_spec (env : Env) (m : MongoDb) :
    Triple (fun w => w.mongo = m) (customerDocs env)
      (fun xs w => List.Forall₂ (GeneratedCustomer env) (List.range' 1 50) xs ∧ w.mongo = m) := by
  refine triple_collect (GeneratedCustomer env) 50 1 _ (fun _ w => w.mongo = m) (fun i _ => ?_)
  refine triple_bind (Q := fun r w => (∃ k, r = env.random k) ∧ w.mongo = m)
    (triple_random env _ _ (fun w hw => ⟨⟨_, rfl⟩, hw⟩)) (fun r => ?_)
  refine triple_pure _ (fun w hw => ⟨⟨rfl, ?_⟩, hw.2⟩)
  obtain ⟨k, rfl⟩ := hw.1
  exact ⟨k, rfl⟩

theorem menuDocs_spec (env : Env) (m : MongoDb) :
    Triple (fun w => w.mongo = m) (menuDocs env)
      (fun xs w => List.Forall₂ (GeneratedMenu env) (List.range' 1 30) xs ∧ w.mongo = m) := by
  refine triple_collect (GeneratedMenu env) 30 1 _ (fun _ w => w.mongo = m) (fun i _ => ?_)
  refine triple_bind (Q := fun r w => (∃ k, r = env.random k) ∧ w.mongo = m)
    (triple_random env _ _ (fun w hw => ⟨⟨_, rfl⟩, hw⟩)) (fun r1 => ?_)
  refine triple_bind (Q := fun r w => ((∃ k, r1 = env.random k) ∧ ∃ k, r = env.random k) ∧
    w.mongo = m) (triple_random env _ _ (fun w hw => ⟨⟨hw.1, _, rfl⟩, hw.2⟩)) (fun r2 => ?_)
  refine triple_pure _ (fun w hw => ⟨⟨rfl, ?_, ?_⟩, hw.2⟩)
  · obtain ⟨k, rfl⟩ := hw.1.1
    exact ⟨k, rfl⟩
  · obtain ⟨k, rfl⟩ := hw.1.2
    exact ⟨k, rfl⟩

theorem forall₂_range_length {α : Type} {R : ℕ → α → Prop} {s n : ℕ} {xs : List α}
    (h : List.Forall₂ R (List.range' s n) xs) : xs.length = n := by
  have := h.length_eq
  simpa using this.symm

theorem forall₂_range_mem {α : Type} {R : ℕ → α → Prop} {s n : ℕ} {xs : List α}
    (h : List.Forall₂ R (List.range' s n) xs) :
    (∀ x ∈ xs, ∃ i, s ≤ i ∧ i < s + n ∧ R i x) ∧ ∀ i, s ≤ i → i < s + n → ∃ x ∈ xs, R i x := by
  induction n generalizing s xs with
  | zero =>
    simp only [List.range'_zero, List.forall₂_nil_left_iff] at h
    subst h
    exact ⟨by simp, fun i h1 h2 => by omega⟩
  | succ k ih =>
    rw [List.range'_succ] at h
    obtain ⟨x, rest, hx, hrest, rfl⟩ := List.forall₂_cons_left_iff.mp h
    obtain ⟨ih1, ih2⟩ := ih hrest
    constructor
    · intro y hy
      rcases List.mem_cons.mp hy with rfl | hy
      · exact ⟨s, le_refl _, by omega, hx⟩
      · obtain ⟨i, h1, h2, h3⟩ := ih1 y hy
        exact ⟨i, by omega, by omega, h3⟩
    · intro i h1 h2
      rcases Nat.eq_or_lt_of_le h1 with rfl | hlt
      · exact ⟨x, List.mem_cons_self _ _, hx⟩
      · obtain ⟨y, hy, hR⟩ := ih2 i (by omega) (by omega)
        exact ⟨y, List.mem_cons_of_mem _ hy, hR⟩

theorem buildOrder_spec (env : Env) (m : MongoDb) :
    Triple (fun w => w.mongo = m) (buildOrder env)
      (fun o w => GeneratedOrder env o ∧ w.mongo = m) := by
  refine triple_bind (Q := fun r w => (∃ k, r = env.random k) ∧ w.mongo = m)
    (triple_random env _ _ (fun w hw => ⟨⟨_, rfl⟩, hw⟩)) (fun r1 => ?_)
  refine triple_bind (Q := fun r w => ((∃ k, r1 = env.random k) ∧ ∃ k, r = env.random k) ∧
    w.mongo = m) (triple_random env _ _ (fun w hw => ⟨⟨hw.1, _, rfl⟩, hw.2⟩)) (fun r2 => ?_)
  refine triple_bind (Q := fun _ w => ((∃ k, r1 = env.random k) ∧ ∃ k, r2 = env.random k) ∧
    w.mongo = m) (triple_clock env _ _ (fun w hw => hw)) (fun date => ?_)
  refine triple_bind
    (Q := fun (items : List ItemDoc) w =>
      (List.Forall₂ (fun (_ : ℕ) (it : ItemDoc) =>
        (∃ k, it.product = productName (randomProductId (env.random k))) ∧
        ∃ k, it.quantity = randomQuantity (env.random k)) (List.range' 1 5) items) ∧
      ((∃ k, r1 = env.random k) ∧ ∃ k, r2 = env.random k) ∧ w.mongo = m) ?_ (fun items => ?_)
  · refine triple_collect _ 5 1 _
      (fun _ w => ((∃ k, r1 = env.random k) ∧ ∃ k, r2 = env.random k) ∧ w.mongo = m)
      (fun i _ => ?_)
    refine triple_bind (Q := fun r w => (∃ k, r = env.random k) ∧
      ((∃ k, r1 = env.random k) ∧ ∃ k, r2 = env.random k) ∧ w.mongo = m)
      (triple_random env _ _ (fun w hw => ⟨⟨_, rfl⟩, hw⟩)) (fun r3 => ?_)
    refine triple_bind (Q := fun r w => ((∃ k, r3 = env.random k) ∧ ∃ k, r = env.random k) ∧
      ((∃ k, r1 = env.random k) ∧ ∃ k, r2 = env.random k) ∧ w.mongo = m)
      (triple_random env _ _ (fun w hw => ⟨⟨hw.1, _, rfl⟩, hw.2⟩)) (fun r4 => ?_)
    refine triple_pure _ (fun w hw => ⟨⟨?_, ?_⟩, hw.2⟩)
    · obtain ⟨k, rfl⟩ := hw.1.1
      exact ⟨k, rfl⟩
    · obtain ⟨k, rfl⟩ := hw.1.2
      exact ⟨k, rfl⟩
  · refine triple_pure _ (fun w hw => ⟨⟨?_, ?_, forall₂_range_length hw.1, ?_⟩, hw.2.2⟩)
    · obtain ⟨k, rfl⟩ := hw.2.1.1
      exact ⟨k, rfl⟩
    · obtain ⟨k, rfl⟩ := hw.2.1.2
      exact ⟨k, rfl⟩
    · intro it hit
      obtain ⟨i, _, _, h⟩ := (forall₂_range_mem hw.1).1 it hit
      exact h

theorem populateMongo_spec (env : Env) (hf : ∀ k, env.fault k = false) :
    Triple (fun w => w.mongo = noDocuments) (populateMongo env)
      (fun _ w => SeededDocs env w.mongo) := by
  refine triple_phase _ (fun w => w.mongo = noDocuments) _ _ _ ?_ (fun w hw => hw)
  refine triple_bind (customerDocs_spec env noDocuments) (fun cdocs => ?_)
  refine triple_bind
    (Q := fun _ w => List.Forall₂ (GeneratedCustomer env) (List.range' 1 50) cdocs ∧
      w.mongo = ⟨cdocs, [], []⟩)
    (triple_mongoCall env hf _ _ _ _ (fun w hw => ⟨hw.1, by simp [hw.2, noDocuments]⟩))
    (fun _ => ?_)
  refine triple_bind
    (Q := fun mdocs w => List.Forall₂ (GeneratedMenu env) (List.range' 1 30) mdocs ∧
      List.Forall₂ (GeneratedCustomer env) (List.range' 1 50) cdocs ∧
      w.mongo = ⟨cdocs, [], []⟩) ?_ (fun mdocs => ?_)
  · intro w hw
    obtain ⟨xs, w1, h1, hxs, hm⟩ := menuDocs_spec env ⟨cdocs, [], []⟩ w hw.2
    exact ⟨xs, w1, h1, hxs, hw.1, hm⟩
  refine triple_bind
    (Q := fun _ w => List.Forall₂ (GeneratedMenu env) (List.range' 1 30) mdocs ∧
      List.Forall₂ (GeneratedCustomer env) (List.range' 1 50) cdocs ∧
      w.mongo = ⟨cdocs, mdocs, []⟩)
    (triple_mongoCall env hf _ _ _ _ (fun w hw => ⟨hw.1, hw.2.1, by simp [hw.2.2]⟩))
    (fun _ => ?_)
  refine triple_bind
    (Q := fun _ w => List.Forall₂ (GeneratedMenu env) (List.range' 1 30) mdocs ∧
      List.Forall₂ (GeneratedCustomer env) (List.range' 1 50) cdocs ∧
      w.mongo.customers = cdocs ∧ w.mongo.menu = mdocs ∧ w.mongo.orders.length = 100 ∧
      ∀ o ∈ w.mongo.orders, GeneratedOrder env o) ?_ (fun _ => ?_)
  · intro w hw
    have hloop := triple_forLoop 100 1
      (fun _ => do
        let order ← buildOrder env
        mongoCall env (.mongoInsertOne .orders) fun db =>
          { db with orders := db.orders ++ [order] })
      (fun i w => w.mongo.customers = cdocs ∧ w.mongo.menu = mdocs ∧
        w.mongo.orders.length = i ∧ ∀ o ∈ w.mongo.orders, GeneratedOrder env o)
      (fun i _ w0 hw0 => ?_) w (by simp [hw.2.2])
    · obtain ⟨u, w1, h1, hq⟩ := hloop
      exact ⟨u, w1, h1, hw.1, hw.2.1, hq⟩
    · beta_reduce at hw0 ⊢
      obtain ⟨o, w1, h1, ho, hm⟩ := buildOrder_spec env w0.mongo w0 rfl
      obtain ⟨_, w2, h2, hq⟩ := triple_mongoCall env hf (.mongoInsertOne .orders)
        (fun db => { db with orders := db.orders ++ [o] }) (fun w => w = w1)
        (fun _ w => w.mongo = { w1.mongo with orders := w1.mongo.orders ++ [o] })
        (fun w hw => by subst hw; rfl) w1 rfl
      refine ⟨(), w2, by rw [bind_apply, h1]; exact h2, ?_⟩
      rw [hq, hm]
      refine ⟨hw0.1, hw0.2.1, by simp [hw0.2.2.1], fun x hx => ?_⟩
      rcases List.mem_append.mp hx with hx | hx
      · exact hw0.2.2.2 x hx
      · rw [List.mem_singleton.mp hx]; exact ho
  · exact triple_emit _ _ _ (fun w hw =>
      ⟨by simpa [hw.2.2.1] using hw.2.1, by simpa [hw.2.2.2.1] using hw.1, hw.2.2.2.2.1,
        hw.2.2.2.2.2⟩)

/-! ## Control flow -/

theorem controlOf_append (s t : List Event) : controlOf (s ++ t) = controlOf s ++ controlOf t :=
  List.filter_append _ _

theorem quiet_pure {α : Type} (a : α) : Quiet (pure a : M α) := fun _ => rfl

theorem quiet_bind {α β : Type} {m : M α} {f : α → M β} (hm : Quiet m) (hf : ∀ a, Quiet (f a)) :
    Quiet (m >>= f) := by
  intro w
  have h := hm w
  rw [bind_apply]
  rcases hmw : m w with ⟨r, w1⟩
  rw [hmw] at h
  cases r with
  | ok a => exact (hf a w1).trans h
  | error e => exact h

theorem quiet_random (env : Env) : Quiet (random env) := fun _ => rfl

theorem quiet_clock (env : Env) : Quiet (clock env) := fun _ => rfl

theorem quiet_emit (ev : Event) (h : ev.isControl = false) : Quiet (emit ev) := by
  intro w
  simp [Lab2DB.emit, controlOf, List.filter_append, h]

theorem quiet_storeCall {α : Type} (env : Env) (c : Call)
    (op : World → Except Err α × World) (hc : ∀ b, (Event.call c b).isControl = false)
    (hop : ∀ w, (op w).2.trace = w.trace) : Quiet (storeCall env c op) := by
  intro w
  unfold Lab2DB.storeCall
  by_cases hfault : env.fault w.calls = true
  · simp [hfault, controlOf, List.filter_append, hc]
  · have h := hop { w with calls := w.calls + 1 }
    simp only [hfault]
    rcases hres : op { w with calls := w.calls + 1 } with ⟨r, w2⟩
    rw [hres] at h
    cases r <;> simp_all [controlOf, List.filter_append]

theorem quiet_pgCall {α : Type} (env : Env) (c : Call) (stmt : PgDb → Except Err α × PgDb)
    (hc : ∀ b, (Event.call c b).isControl = false) : Quiet (pgCall env c stmt) :=
  quiet_storeCall env c _ hc (fun _ => rfl)

theorem quiet_mongoCall (env : Env) (c : Call) (upd : MongoDb → MongoDb)
    (hc : ∀ b, (Event.call c b).isControl = false) : Quiet (mongoCall env c upd) :=
  quiet_storeCall env c _ hc (fun _ => rfl)

theorem quiet_plainCall (env : Env) (c : Call)
    (hc : ∀ b, (Event.call c b).isControl = false) : Quiet (plainCall env c) :=
  quiet_storeCall env c _ hc (fun _ => rfl)

theorem quiet_forLoop (n : ℕ) : ∀ (start : ℕ) (body : ℕ → M Unit),
    (∀ i, Quiet (body i)) → Quiet (forLoop start n body) := by
  induction n with
  | zero => intro _ _ _; exact quiet_pure ()
  | succ k ih =>
    intro start body h
    unfold Lab2DB.forLoop
    exact quiet_bind (h start) (fun _ => ih _ _ h)

theorem quiet_collect {α : Type} (n : ℕ) : ∀ (start : ℕ) (body : ℕ → M α),
    (∀ i, Quiet (body i)) → Quiet (collect start n body) := by
  induction n with
  | zero => intro _ _ _; exact quiet_pure []
  | succ k ih =>
    intro start body h
    unfold Lab2DB.collect
    exact quiet_bind (h start) (fun _ => quiet_bind (ih _ _ h) (fun _ => quiet_pure _))

theorem quiet_sendAll {α : Type} (send : α → M Unit) (h : ∀ a, Quiet (send a)) :
    ∀ xs : List α, Quiet (sendAll send xs) := by
  intro xs
  induction xs with
  | nil => exact quiet_pure ()
  | cons x xs ih =>
    unfold Lab2DB.sendAll
    exact quiet_bind (h x) (fun _ => ih)

theorem quiet_fanOut {α : Type} (n start : ℕ) (prepare : ℕ → M α) (send : α → M Unit)
    (hp : ∀ i, Quiet (prepare i)) (hs : ∀ a, Quiet (send a)) :
    Quiet (fanOut start n prepare send) :=
  quiet_bind (quiet_collect n start prepare hp) (fun xs => quiet_sendAll send hs xs)

theorem runsPhases_phase {α : Type} (p : Phase) {body : M α} (h : Quiet body) :
    RunsPhases [p] (phase p body) := by
  intro w
  have hq := h { w with trace := w.trace ++ [.phase p] }
  unfold Lab2DB.phase
  rcases hres : body { w with trace := w.trace ++ [.phase p] } with ⟨r, w1⟩
  rw [hres] at hq
  simp only [controlOf_append] at hq
  cases r with
  | ok a =>
    left
    exact ⟨a, w1, rfl, by simpa [controlOf, Event.isControl] using hq⟩
  | error e =>
    right
    refine ⟨e, _, [], p, [], rfl, rfl, ?_⟩
    simp only [controlOf_append, hq]
    simp [controlOf, Event.isControl]

theorem runsPhases_bind {α β : Type} {ps qs : List Phase} {m : M α} {f : α → M β}
    (hm : RunsPhases ps m) (hf : ∀ a, RunsPhases qs (f a)) :
    RunsPhases (ps ++ qs) (m >>= f) := by
  intro w
  rcases hm w with ⟨a, w1, h1, hc1⟩ | ⟨e, w1, done, p, rest, h1, hps, hc1⟩
  · rcases hf a w1 with ⟨b, w2, h2, hc2⟩ | ⟨e, w2, done, p, rest, h2, hqs, hc2⟩
    · left
      exact ⟨b, w2, by rw [bind_apply, h1]; exact h2, by simp [hc2, hc1]⟩
    · right
      refine ⟨e, w2, ps ++ done, p, rest, by rw [bind_apply, h1]; exact h2, by simp [hqs], ?_⟩
      simp [hc2, hc1]
  · right
    exact ⟨e, w1, done, p, rest ++ qs, by rw [bind_apply, h1], by simp [hps], hc1⟩

theorem runsPhases_quiet {α : Type} {m : M α} (hq : Quiet m) (hok : ∀ w, ∃ a w1, m w = (.ok a, w1)) :
    RunsPhases [] m := by
  intro w
  obtain ⟨a, w1, h⟩ := hok w
  left
  refine ⟨a, w1, h, ?_⟩
  have := hq w
  rw [h] at this
  simpa using this

theorem runsPhases_emit (ev : Event) (h : ev.isControl = false) : RunsPhases [] (emit ev) :=
  runsPhases_quiet (quiet_emit ev h) (fun _ => ⟨_, _, rfl⟩)

theorem initPostgres_runs (env : Env) : RunsPhases [.resetRelational] (initPostgres env) :=
  runsPhases_phase _
    (quiet_bind (quiet_plainCall env _ (fun _ => rfl)) fun _ =>
      quiet_bind (quiet_pgCall env _ _ (fun _ => rfl)) fun _ => quiet_emit _ rfl)

theorem initMongo_runs (env : Env) : RunsPhases [.resetDocument] (initMongo env) :=
  runsPhases_phase _
    (quiet_bind (quiet_plainCall env _ (fun _ => rfl)) fun _ =>
      quiet_bind (quiet_mongoCall env _ _ (fun _ => rfl)) fun _ =>
        quiet_bind (quiet_mongoCall env _ _ (fun _ => rfl)) fun _ =>
          quiet_bind (quiet_mongoCall env _ _ (fun _ => rfl)) fun _ => quiet_emit _ rfl)

theorem seedOrders_quiet (env : Env) : Quiet (seedOrders env) :=
  quiet_forLoop _ _ _ fun _ =>
    quiet_bind (quiet_random env) fun _ =>
      quiet_bind (quiet_random env) fun _ =>
        quiet_bind (quiet_storeCall env _ _ (fun _ => rfl) (fun _ => rfl)) fun _ =>
          quiet_forLoop _ _ _ fun _ =>
            quiet_bind (quiet_random env) fun _ =>
              quiet_bind (quiet_random env) fun _ => quiet_pgCall env _ _ (fun _ => rfl)

theorem populatePostgres_runs (env : Env) :
    RunsPhases [.populateRelational] (populatePostgres env) :=
  runsPhases_phase _
    (quiet_bind
      (quiet_fanOut _ _ _ _
        (fun _ => quiet_bind (quiet_random env) fun _ => quiet_pure _)
        (fun _ => quiet_pgCall env _ _ (fun _ => rfl))) fun _ =>
      quiet_bind (quiet_forLoop _ _ _ fun _ => quiet_pgCall env _ _ (fun _ => rfl)) fun _ =>
        quiet_bind
          (quiet_fanOut _ _ _ _
            (fun _ => quiet_bind (quiet_random env) fun _ =>
              quiet_bind (quiet_random env) fun _ => quiet_pure _)
            (fun _ => quiet_pgCall env _ _ (fun _ => rfl)))
          fun _ => quiet_bind (seedOrders_quiet env) fun _ => quiet_emit _ rfl)

theorem buildOrder_quiet (env : Env) : Quiet (buildOrder env) :=
  quiet_bind (quiet_random env) fun _ =>
    quiet_bind (quiet_random env) fun _ =>
      quiet_bind (quiet_clock env) fun _ =>
        quiet_bind
          (quiet_collect _ _ _ fun _ =>
            quiet_bind (quiet_random env) fun _ =>
              quiet_bind (quiet_random env) fun _ => quiet_pure _)
          fun _ => quiet_pure _

theorem populateMongo_runs (env : Env) :
    RunsPhases [.populateDocument] (populateMongo env) :=
  runsPhases_phase _
    (quiet_bind
      (quiet_collect _ _ _ fun _ => quiet_bind (quiet_random env) fun _ => quiet_pure _)
      fun _ =>
      quiet_bind (quiet_mongoCall env _ _ (fun _ => rfl)) fun _ =>
        quiet_bind
          (quiet_collect _ _ _ fun _ =>
            quiet_bind (quiet_random env) fun _ =>
              quiet_bind (quiet_random env) fun _ => quiet_pure _)
          fun _ =>
          quiet_bind (quiet_mongoCall env _ _ (fun _ => rfl)) fun _ =>
            quiet_bind
              (quiet_forLoop _ _ _ fun _ =>
                quiet_bind (buildOrder_quiet env) fun _ =>
                  quiet_mongoCall env _ _ (fun _ => rfl))
              fun _ => quiet_emit _ rfl)

theorem relationalRead_runs (env : Env) :
    RunsPhases [.relationalRead] (relationalRead env) :=
  runsPhases_phase _ (quiet_pgCall env .pgSelect _ (fun _ => rfl))

theorem documentRead_runs (env : Env) : RunsPhases [.documentRead] (documentRead env) :=
  runsPhases_phase _ (quiet_storeCall env (.mongoFind .orders) _ (fun _ => rfl) (fun _ => rfl))

theorem testPerformance_runs (env : Env) :
    RunsPhases [.relationalRead, .documentRead] (testPerformance env) := by
  have h : RunsPhases ([.relationalRead] ++ ([.documentRead] ++ ([] ++ [])))
      (relationalRead env >>= fun _ => documentRead env >>= fun _ =>
        emit (.consoleLog "PostgreSQL select Query Time:") >>= fun _ =>
          emit (.consoleLog "MongoDB find Query Time:")) :=
    runsPhases_bind (relationalRead_runs env) (fun _ =>
      runsPhases_bind (documentRead_runs env) (fun _ =>
        runsPhases_bind (runsPhases_emit _ rfl) (fun _ => runsPhases_emit _ rfl)))
  exact h

theorem phases_runs (env : Env) : RunsPhases allPhases (phases env) := by
  have h := runsPhases_bind (initPostgres_runs env) (fun _ =>
    runsPhases_bind (initMongo_runs env) (fun _ =>
      runsPhases_bind (populatePostgres_runs env) (fun _ =>
        runsPhases_bind (populateMongo_runs env) (fun _ => testPerformance_runs env))))
  exact h

theorem teardown_cases (env : Env) (w : World) :
    ((teardown env w).1 = .ok () ∧
      (teardown env w).2.trace = w.trace ++ [.call .pgEnd true, .call .mongoClose true]) ∨
    ((teardown env w).1 = .error .connection ∧
      (teardown env w).2.trace = w.trace ++ [.call .pgEnd true, .call .mongoClose false]) := by
  have h : teardown env = (settledCall .pgEnd >>= fun _ => plainCall env .mongoClose) := rfl
  rw [h, bind_apply]
  by_cases h2 : env.fault (w.calls + 1) = true
  · right
    simp [settledCall, plainCall, storeCall, h2]
  · left
    simp [settledCall, plainCall, storeCall, h2]

theorem main_ends_in_teardown (env : Env) (w : World) :
    ∃ w1, main env w = teardown env w1 := by
  rcases h1 : phases env w with ⟨r, w1⟩
  cases r with
  | ok a => exact ⟨w1, by simp [main, tryCatchFinally, h1]⟩
  | error e =>
    exact ⟨{ w1 with trace := w1.trace ++ [.consoleError e] },
      by simp only [main, tryCatchFinally, h1, emit]⟩

theorem main_shape (env : Env) (w : World) :
    ∃ (ran rest : List Phase) (caught fin : List Event),
      ran ++ rest = allPhases ∧ ran ≠ [] ∧
      controlOf (main env w).2.trace =
        controlOf w.trace ++ ran.map Event.phase ++ caught ++ fin ∧
      ((rest = [] ∧ caught = []) ∨
        ∃ p e, ran.getLast? = some p ∧ caught = [.phaseFailed p, .consoleError e]) ∧
      ((fin = [.call .pgEnd true, .call .mongoClose true] ∧ (main env w).1 = .ok ()) ∨
        (fin = [.call .pgEnd true, .call .mongoClose false] ∧
          (main env w).1 = .error .connection)) := by
  have hfin : ∀ w1 : World, ∃ fin : List Event,
      controlOf (teardown env w1).2.trace = controlOf w1.trace ++ fin ∧
      ((fin = [.call .pgEnd true, .call .mongoClose true] ∧ (teardown env w1).1 = .ok ()) ∨
        (fin = [.call .pgEnd true, .call .mongoClose false] ∧
          (teardown env w1).1 = .error .connection)) := by
    intro w1
    rcases teardown_cases env w1 with ⟨hr, ht⟩ | ⟨hr, ht⟩
    · exact ⟨_, by rw [ht, controlOf_append]; rfl, Or.inl ⟨rfl, hr⟩⟩
    · exact ⟨_, by rw [ht, controlOf_append]; rfl, Or.inr ⟨rfl, hr⟩⟩
  rcases phases_runs env w with ⟨a, w1, h1, hc1⟩ | ⟨e, w1, done, p, rest, h1, hps, hc1⟩
  · obtain ⟨fin, hc, hres⟩ := hfin w1
    have hmain : main env w = teardown env w1 := by
      simp [main, tryCatchFinally, h1]
    refine ⟨allPhases, [], [], fin, by simp, by simp [allPhases], ?_, Or.inl ⟨rfl, rfl⟩, ?_⟩
    · rw [hmain, hc, hc1]; simp
    · rw [hmain]; exact hres
  · obtain ⟨fin, hc, hres⟩ := hfin { w1 with trace := w1.trace ++ [.consoleError e] }
    have hmain : main env w =
        teardown env { w1 with trace := w1.trace ++ [.consoleError e] } := by
      simp only [main, tryCatchFinally, h1, emit]
    refine ⟨done ++ [p], rest, [.phaseFailed p, .consoleError e], fin, by simp [hps],
      by simp, ?_, Or.inr ⟨p, e, by simp, rfl⟩, ?_⟩
    · rw [hmain, hc, controlOf_append, hc1]
      simp [controlOf, Event.isControl]
    · rw [hmain]; exact hres

/-- C9: whatever the draws, the rejected calls and the stores hold, `main` starts
the six phases in their fixed order and stops at the first one that throws:
for some `1 ≤ k ≤ 6` exactly the first `k` phases start; either all six ran and
none failed, or the `k`-th phase failed, its error was printed once by the
`catch` clause and no later phase started.  The `finally` block follows
(`pgClient.end()`, then `mongoClient.close()`), and the result of `main` is that
of the `finally` block alone: the error of a phase never reaches the caller. -/
theorem main_phases_in_order (env : Env) (w : World) :
    ∃ (k : ℕ) (caught fin : List Event), 1 ≤ k ∧ k ≤ 6 ∧
      controlOf (main env w).2.trace =
        controlOf w.trace ++ (allPhases.take k).map Event.phase ++ caught ++ fin ∧
      ((k = 6 ∧ caught = []) ∨
        ∃ p e, allPhases[k - 1]? = some p ∧ caught = [.phaseFailed p, .consoleError e]) ∧
      ((fin = [.call .pgEnd true, .call .mongoClose true] ∧ (main env w).1 = .ok ()) ∨
        (fin = [.call .pgEnd true, .call .mongoClose false] ∧
          (main env w).1 = .error .connection)) := by
  obtain ⟨ran, rest, caught, fin, hsplit, hne, hc, hcaught, hfin⟩ := main_shape env w
  have hlen : ran.length + rest.length = 6 := by
    have := congrArg List.length hsplit
    simpa [allPhases] using this
  have hpos : 1 ≤ ran.length := by
    cases ran with
    | nil => exact absurd rfl hne
    | cons _ _ => simp
  have htake : allPhases.take ran.length = ran := by
    rw [← hsplit]; simp
  refine ⟨ran.length, caught, fin, hpos, by omega, by rw [htake]; exact hc, ?_, hfin⟩
  rcases hcaught with ⟨hrest, hcaught⟩ | ⟨p, e, hlast, hcaught⟩
  · left
    subst hrest
    exact ⟨by simpa using hlen, hcaught⟩
  · right
    refine ⟨p, e, ?_, hcaught⟩
    rw [← hsplit, List.getElem?_append_left (by omega), ← List.getLast?_eq_getElem?]
    exact hlast

/-- C3: on every run of `main`, whatever the stores hold at the start and
whatever the outcome of each store call made during the run, both
`pgClient.end()` and `mongoClient.close()` are invoked before `main` finishes:
they are the last two calls of the run, in this order, and neither is made
earlier in the run. -/
theorem main_releases_both (env : Env) (pg : PgDb) (mongo : MongoDb) :
    ∃ (before : List Event) (ok : Bool),
      (main env (start pg mongo)).2.trace =
        before ++ [.call .pgEnd true, .call .mongoClose ok] ∧
      ∀ b, Event.call .pgEnd b ∉ before ∧ Event.call .mongoClose b ∉ before := by
  obtain ⟨ran, rest, caught, fin, -, -, hc, hcaught, hfin⟩ :=
    main_shape env (start pg mongo)
  obtain ⟨w1, hw1⟩ := main_ends_in_teardown env (start pg mongo)
  have hfin2 : ∃ ok, fin = [.call .pgEnd true, .call .mongoClose ok] := by
    rcases hfin with ⟨h, -⟩ | ⟨h, -⟩ <;> exact ⟨_, h⟩
  obtain ⟨ok2, rfl⟩ := hfin2
  have htr : ∃ ok, (main env (start pg mongo)).2.trace =
      w1.trace ++ [.call .pgEnd true, .call .mongoClose ok] := by
    rw [hw1]
    rcases teardown_cases env w1 with ⟨-, ht⟩ | ⟨-, ht⟩ <;> exact ⟨_, ht⟩
  obtain ⟨ok, htr⟩ := htr
  refine ⟨w1.trace, ok, htr, ?_⟩
  have hctl : controlOf w1.trace ++ [.call .pgEnd true, .call .mongoClose ok] =
      (ran.map Event.phase ++ caught) ++ [.call .pgEnd true, .call .mongoClose ok2] := by
    have h := hc
    rw [htr, controlOf_append] at h
    simpa [start, controlOf, Event.isControl] using h
  have hpre : controlOf w1.trace = ran.map Event.phase ++ caught :=
    (List.append_inj' hctl rfl).1
  have hno : ∀ ev : Event, ev.isControl = true → ev ∉ ran.map Event.phase ++ caught →
      ev ∉ w1.trace := by
    intro ev hev hn hmem
    apply hn
    rw [← hpre]
    simp [controlOf, List.mem_filter, hev, hmem]
  intro b
  constructor
  · apply hno (Event.call .pgEnd b) rfl
    rcases hcaught with ⟨-, rfl⟩ | ⟨p, e, -, rfl⟩ <;> simp
  · apply hno (Event.call .mongoClose b) rfl
    rcases hcaught with ⟨-, rfl⟩ | ⟨p, e, -, rfl⟩ <;> simp

/-! ## Generated values: categories, prices, ids and quantities -/

/-- C10: for every draw `r` (a binary64 value with `0 ≤ r < 1`) the index
`Math.floor(r * 3)`, the product being rounded to binary64, lies within the
three-element array `categories`, so the lookup is defined and yields Drinks,
Snacks or Meals; `pickCategory` is the expression both populate functions use. -/
theorem pickCategory_in_bounds (r : ℚ) (h : IsDraw r) :
    0 ≤ mathFloor (jsMul r (categories.length : ℚ)) ∧
    mathFloor (jsMul r (categories.length : ℚ)) < (categories.length : ℤ) ∧
    ∃ c, pickCategory r = some c ∧ (c = "Drinks" ∨ c = "Snacks" ∨ c = "Meals") := by
  obtain ⟨hlo, hhi⟩ := mathFloor_range r categories.length 1 h (by decide) (by decide)
    (by decide)
  refine ⟨hlo, hhi, ?_⟩
  unfold pickCategory jsIndex
  generalize mathFloor (jsMul r (categories.length : ℚ)) = i at hlo hhi
  have h3 : (categories.length : ℤ) = 3 := rfl
  rw [h3] at hhi
  interval_cases i <;> simp [categories]

/-- Witness of C10 at the draw 1/2. -/
theorem pickCategory_in_bounds_witness :
    IsDraw (1 / 2) ∧
    0 ≤ mathFloor (jsMul (1 / 2) (categories.length : ℚ)) ∧
    mathFloor (jsMul (1 / 2) (categories.length : ℚ)) < (categories.length : ℤ) ∧
    ∃ c, pickCategory (1 / 2) = some c ∧ (c = "Drinks" ∨ c = "Snacks" ∨ c = "Meals") :=
  ⟨isDraw_half, pickCategory_in_bounds (1 / 2) isDraw_half⟩

/-- C7: for every draw `r` (a binary64 value with `0 ≤ r < 1`) the price
`(r * 50).toFixed(2)`, the product being rounded to binary64, is non-negative,
denotes `n / 100` for an integer `0 ≤ n ≤ 5000` (a value in `[0.00, 50.00]`)
within half a hundredth of the Number `r * 50`, and its text is a non-empty run
of digits, a point and exactly two digits; `randomPrice` is the expression both
populate functions use. -/
theorem randomPrice_two_decimals (r : ℚ) (h : IsDraw r) :
    (randomPrice r).negative = false ∧
    (randomPrice r).hundredths ≤ 5000 ∧
    (randomPrice r).value = ((randomPrice r).hundredths : ℚ) / 100 ∧
    0 ≤ (randomPrice r).value ∧ (randomPrice r).value ≤ 50 ∧
    |(randomPrice r).value - jsMul r 50| ≤ 1 / 200 ∧
    ∃ ds d1 d2, (randomPrice r).render = ds ++ ['.', d1, d2] ∧ ds ≠ [] ∧
      (∀ c ∈ ds, c.isDigit = true) ∧ d1.isDigit = true ∧ d2.isDigit = true := by
  obtain ⟨hneg, hle⟩ := randomPrice_hundredths r h
  have hval : (randomPrice r).value = ((randomPrice r).hundredths : ℚ) / 100 := by
    simp [Fixed2.value, hneg]
  have hx : (0 : ℚ) ≤ jsMul r 50 := by simpa using jsMul_nonneg h 50
  have hfl : (0 : ℤ) ≤ Int.floor (jsMul r 50 * 100 + 1 / 2) :=
    Int.floor_nonneg.mpr (by positivity)
  have hn : ((randomPrice r).hundredths : ℚ) =
      (Int.floor (jsMul r 50 * 100 + 1 / 2) : ℚ) := by
    simp only [randomPrice, toFixed2, abs_of_nonneg hx]
    have : ((Int.floor (jsMul r 50 * 100 + 1 / 2)).toNat : ℤ) =
        Int.floor (jsMul r 50 * 100 + 1 / 2) :=
      Int.toNat_of_nonneg hfl
    exact_mod_cast this
  have hq : ((randomPrice r).hundredths : ℚ) ≤ 5000 := by exact_mod_cast hle
  have hlo := Int.floor_le (jsMul r 50 * 100 + 1 / 2)
  have hhi := Int.lt_floor_add_one (jsMul r 50 * 100 + 1 / 2)
  refine ⟨hneg, hle, hval, ?_, ?_, ?_, ?_⟩
  · rw [hval]; positivity
  · rw [hval]; linarith
  · rw [hval, hn, abs_le]
    constructor <;> linarith
  · refine ⟨Nat.toDigits 10 ((randomPrice r).hundredths / 100),
      Nat.digitChar ((randomPrice r).hundredths % 100 / 10),
      Nat.digitChar ((randomPrice r).hundredths % 10), ?_, toDigits_ne_nil _,
      toDigits_isDigit _, digitChar_isDigit _ (by omega), digitChar_isDigit _ (by omega)⟩
    simp [Fixed2.render, hneg]

/-- Witness of C7 at the draw 1/2. -/
theorem randomPrice_two_decimals_witness :
    IsDraw (1 / 2) ∧
    (randomPrice (1 / 2)).hundredths ≤ 5000 ∧ (randomPrice (1 / 2)).value ≤ 50 :=
  ⟨isDraw_half,
    (randomPrice_two_decimals (1 / 2) isDraw_half).2.1,
    (randomPrice_two_decimals (1 / 2) isDraw_half).2.2.2.2.1⟩

/-- For a draw other than 0, `Math.ceil(r * n)` lies in `[1, n]`: the four id
and quantity expressions are in range. -/
theorem random_ids_in_range (r : ℚ) (h : IsDraw r) (h0 : 0 < r) :
    (1 ≤ randomCustomerId r ∧ randomCustomerId r ≤ 50) ∧
    (1 ≤ randomTableId r ∧ randomTableId r ≤ 20) ∧
    (1 ≤ randomProductId r ∧ randomProductId r ≤ 30) ∧
    (1 ≤ randomQuantity r ∧ randomQuantity r ≤ 5) :=
  ⟨by simpa using mathCeil_range r 50 5 h h0 (by norm_num) (by norm_num) (by norm_num),
    by simpa using mathCeil_range r 20 4 h h0 (by norm_num) (by norm_num) (by norm_num),
    by simpa using mathCeil_range r 30 4 h h0 (by norm_num) (by norm_num) (by norm_num),
    by simpa using mathCeil_range r 5 2 h h0 (by norm_num) (by norm_num) (by norm_num)⟩

theorem random_ids_zero :
    randomCustomerId 0 = 0 ∧ randomTableId 0 = 0 ∧ randomProductId 0 = 0 ∧
      randomQuantity 0 = 0 := by
  simp [randomCustomerId, randomTableId, randomProductId, randomQuantity, mathCeil,
    jsMul_zero]

/-! ### Draws at which the rounding of the product decides the result -/

/-- At the draw `2916080758722396 / 2^52` the exact product with 50 lies just
below 32.375 and rounds to the Number 32.375, which `toFixed(2)` prints as
`32.38`; the exact product would print as `32.37`. -/
theorem randomPrice_rounded_product :
    jsMul (2916080758722396 / 2 ^ 52) 50 = 259 / 8 ∧
    randomPrice (2916080758722396 / 2 ^ 52) = ⟨false, 3238⟩ ∧
    toFixed2 (2916080758722396 / 2 ^ 52 * 50) = ⟨false, 3237⟩ := by
  have h : jsMul (2916080758722396 / 2 ^ 52) 50 = 259 / 8 := by
    unfold jsMul
    rw [binary64_eq_of_round (-47) 4556376185503744 (by norm_num) (by norm_num) (by norm_num)]
    · norm_num
    · rw [roundHalfEven_eq_of_floor 4556376185503743 (by rw [Int.floor_eq_iff]; norm_num)]
      norm_num
  refine ⟨h, ?_, ?_⟩
  · unfold randomPrice toFixed2
    rw [h]
    have : Int.floor (|(259 / 8 : ℚ)| * 100 + 1 / 2) = 3238 := by
      rw [Int.floor_eq_iff]; norm_num [abs_of_nonneg]
    rw [this]
    norm_num
    rfl
  · unfold toFixed2
    have : Int.floor (|(2916080758722396 / 2 ^ 52 * 50 : ℚ)| * 100 + 1 / 2) = 3237 := by
      rw [Int.floor_eq_iff]; norm_num [abs_of_nonneg]
    rw [this]
    norm_num
    rfl

/-- At the largest draw, `1 - 2^-53`, the product with 3 rounds to the largest
Number below 3: the index is 2, within bounds. -/
theorem pickCategory_largest_draw :
    jsMul (9007199254740991 / 2 ^ 53) 3 = 6755399441055743 / 2 ^ 51 ∧
    pickCategory (9007199254740991 / 2 ^ 53) = some "Meals" := by
  have h : jsMul (9007199254740991 / 2 ^ 53) 3 = 6755399441055743 / 2 ^ 51 := by
    unfold jsMul
    rw [binary64_eq_of_round (-51) 6755399441055743 (by norm_num) (by norm_num) (by norm_num)]
    · norm_num
    · rw [roundHalfEven_eq_of_floor 6755399441055743 (by rw [Int.floor_eq_iff]; norm_num)]
      norm_num
  refine ⟨h, ?_⟩
  unfold pickCategory
  have hl : ((categories.length : ℕ) : ℚ) = 3 := by norm_num [categories]
  rw [hl, h]
  have hf : mathFloor (6755399441055743 / 2 ^ 51 : ℚ) = 2 := by
    unfold mathFloor
    rw [Int.floor_eq_iff]; norm_num
  rw [hf]
  simp [jsIndex, categories]

/-- At the draw `6004799503160661 / 2^53` the exact product with 3 lies below 2
and rounds to the Number 2: the category is the third one. -/
theorem pickCategory_rounded_product :
    jsMul (6004799503160661 / 2 ^ 53) 3 = 2 ∧
    pickCategory (6004799503160661 / 2 ^ 53) = some "Meals" := by
  have h : jsMul (6004799503160661 / 2 ^ 53) 3 = 2 := by
    unfold jsMul
    rw [binary64_eq_of_round (-52) 9007199254740992 (by norm_num) (by norm_num) (by norm_num)]
    · norm_num
    · rw [roundHalfEven_eq_of_floor 9007199254740991 (by rw [Int.floor_eq_iff]; norm_num)]
      norm_num
  refine ⟨h, ?_⟩
  unfold pickCategory
  have hl : ((categories.length : ℕ) : ℚ) = 3 := by norm_num [categories]
  rw [hl, h]
  simp [mathFloor, jsIndex, categories]

/-- At the Number nearest to 0.8, `3602879701896397 / 2^52`, the exact products
lie just above 40, 16, 24 and 4 and round to these Numbers. -/
theorem random_ids_rounded_product :
    randomCustomerId (3602879701896397 / 2 ^ 52) = 40 ∧
    randomTableId (3602879701896397 / 2 ^ 52) = 16 ∧
    randomProductId (3602879701896397 / 2 ^ 52) = 24 ∧
    randomQuantity (3602879701896397 / 2 ^ 52) = 4 := by
  have h50 : jsMul (3602879701896397 / 2 ^ 52) 50 = 40 := by
    unfold jsMul
    rw [binary64_eq_of_round (-47) 5629499534213120 (by norm_num) (by norm_num) (by norm_num)]
    · norm_num
    · rw [roundHalfEven_eq_of_floor 5629499534213120 (by rw [Int.floor_eq_iff]; norm_num)]
      norm_num
  have h20 : jsMul (3602879701896397 / 2 ^ 52) 20 = 16 := by
    unfold jsMul
    rw [binary64_eq_of_round (-48) 4503599627370496 (by norm_num) (by norm_num) (by norm_num)]
    · norm_num
    · rw [roundHalfEven_eq_of_floor 4503599627370496 (by rw [Int.floor_eq_iff]; norm_num)]
      norm_num
  have h30 : jsMul (3602879701896397 / 2 ^ 52) 30 = 24 := by
    unfold jsMul
    rw [binary64_eq_of_round (-48) 6755399441055744 (by norm_num) (by norm_num) (by norm_num)]
    · norm_num
    · rw [roundHalfEven_eq_of_floor 6755399441055744 (by rw [Int.floor_eq_iff]; norm_num)]
      norm_num
  have h5 : jsMul (3602879701896397 / 2 ^ 52) 5 = 4 := by
    unfold jsMul
    rw [binary64_eq_of_round (-50) 4503599627370496 (by norm_num) (by norm_num) (by norm_num)]
    · norm_num
    · rw [roundHalfEven_eq_of_floor 4503599627370496 (by rw [Int.floor_eq_iff]; norm_num)]
      norm_num
  simp [randomCustomerId, randomTableId, randomProductId, randomQuantity, mathCeil,
    h50, h20, h30, h5]

/-! ## The document store: counts and name references -/

/-- C2: from three empty collections, when no store call is rejected,
`populateMongo` ends normally and leaves exactly 50 documents in `customers`,
30 in `menu` and 100 in `orders`, each order with exactly 5 items; this holds
for every sequence of draws. -/
theorem populateMongo_counts (env : Env) (hf : ∀ k, env.fault k = false) (w : World)
    (hw : w.mongo = noDocuments) :
    (populateMongo env w).1 = .ok () ∧
    (populateMongo env w).2.mongo.customers.length = 50 ∧
    (populateMongo env w).2.mongo.menu.length = 30 ∧
    (populateMongo env w).2.mongo.orders.length = 100 ∧
    ∀ o ∈ (populateMongo env w).2.mongo.orders, o.items.length = 5 := by
  obtain ⟨_, w1, h1, hs⟩ := populateMongo_spec env hf w hw
  rw [h1]
  exact ⟨rfl, forall₂_range_length hs.customers, forall₂_range_length hs.menu,
    hs.orders_length, fun o ho => (hs.orders o ho).2.2.1⟩

/-- Witness of C2: all draws 1/2, no rejected call, empty stores. -/
theorem populateMongo_counts_witness :
    ((∀ k, envHalf.fault k = false) ∧ (start noSchema noDocuments).mongo = noDocuments) ∧
    (populateMongo envHalf (start noSchema noDocuments)).1 = .ok () ∧
    (populateMongo envHalf (start noSchema noDocuments)).2.mongo.customers.length = 50 ∧
    (populateMongo envHalf (start noSchema noDocuments)).2.mongo.menu.length = 30 ∧
    (populateMongo envHalf (start noSchema noDocuments)).2.mongo.orders.length = 100 ∧
    ∀ o ∈ (populateMongo envHalf (start noSchema noDocuments)).2.mongo.orders,
      o.items.length = 5 :=
  ⟨⟨fun _ => rfl, rfl⟩,
    populateMongo_counts envHalf (fun _ => rfl) (start noSchema noDocuments) rfl⟩

theorem customerName_zero_fresh (i : ℕ) (h1 : 1 ≤ i) (h2 : i < 1 + 50) :
    customerName (i : ℤ) ≠ "Customer 0" := by
  interval_cases i <;> decide

theorem productName_zero_fresh (i : ℕ) (h1 : 1 ≤ i) (h2 : i < 1 + 30) :
    productName (i : ℤ) ≠ "Product 0" := by
  interval_cases i <;> decide

/-- With binary64 draws strictly between 0 and 1 and no rejected call, every
name an order document refers to is the name of an inserted document. -/
theorem populateMongo_references (env : Env) (hf : ∀ k, env.fault k = false)
    (hr : ∀ k, IsDraw (env.random k) ∧ 0 < env.random k) (w : World)
    (hw : w.mongo = noDocuments) :
    ∀ o ∈ (populateMongo env w).2.mongo.orders,
      (∃ c ∈ (populateMongo env w).2.mongo.customers, c.name = o.customer) ∧
      ∀ it ∈ o.items, (∃ m ∈ (populateMongo env w).2.mongo.menu, m.name = it.product) ∧
        1 ≤ it.quantity ∧ it.quantity ≤ 5 := by
  obtain ⟨_, w1, h1, hs⟩ := populateMongo_spec env hf w hw
  rw [h1]
  intro o ho
  obtain ⟨⟨k, hk⟩, -, -, hitems⟩ := hs.orders o ho
  constructor
  · obtain ⟨⟨hc1, hc2⟩, -⟩ := random_ids_in_range (env.random k) (hr k).1 (hr k).2
    obtain ⟨c, hc, hname, -⟩ := (forall₂_range_mem hs.customers).2
      (randomCustomerId (env.random k)).toNat (by omega) (by omega)
    refine ⟨c, hc, ?_⟩
    rw [hname, hk, Int.toNat_of_nonneg (by omega)]
  · intro it hit
    obtain ⟨⟨k1, hk1⟩, k2, hk2⟩ := hitems it hit
    obtain ⟨-, -, ⟨hp1, hp2⟩, -⟩ := random_ids_in_range (env.random k1) (hr k1).1 (hr k1).2
    obtain ⟨-, -, -, hq⟩ := random_ids_in_range (env.random k2) (hr k2).1 (hr k2).2
    obtain ⟨m, hm, hname, -⟩ := (forall₂_range_mem hs.menu).2
      (randomProductId (env.random k1)).toNat (by omega) (by omega)
    refine ⟨⟨m, hm, ?_⟩, by rw [hk2]; exact hq⟩
    rw [hname, hk1, Int.toNat_of_nonneg (by omega)]

/-- C5 fails at the draw 0: when every draw is 0, `populateMongo` ends normally
with 100 order documents, every one of which names the customer `Customer 0`
and the product `Product 0` in each item, while no document of `customers` or
`menu` has such a name. -/
theorem populateMongo_dangling_names :
    (populateMongo envZero (start noSchema noDocuments)).1 = .ok () ∧
    (populateMongo envZero (start noSchema noDocuments)).2.mongo.orders.length = 100 ∧
    (∀ o ∈ (populateMongo envZero (start noSchema noDocuments)).2.mongo.orders,
      o.customer = "Customer 0" ∧ ∀ it ∈ o.items, it.product = "Product 0") ∧
    (∀ c ∈ (populateMongo envZero (start noSchema noDocuments)).2.mongo.customers,
      c.name ≠ "Customer 0") ∧
    (∀ m ∈ (populateMongo envZero (start noSchema noDocuments)).2.mongo.menu,
      m.name ≠ "Product 0") := by
  obtain ⟨_, w1, h1, hs⟩ :=
    populateMongo_spec envZero (fun _ => rfl) (start noSchema noDocuments) rfl
  rw [h1]
  have hz := random_ids_zero
  refine ⟨rfl, hs.orders_length, fun o ho => ?_, fun c hc => ?_, fun m hm => ?_⟩
  · obtain ⟨⟨k, hk⟩, -, -, hitems⟩ := hs.orders o ho
    refine ⟨by rw [hk]; simp only [envZero, hz.1]; decide, fun it hit => ?_⟩
    obtain ⟨⟨k1, hk1⟩, -⟩ := hitems it hit
    rw [hk1]; simp only [envZero, hz.2.2.1]; decide
  · obtain ⟨i, hi1, hi2, hname, -⟩ := (forall₂_range_mem hs.customers).1 c hc
    rw [hname]; exact customerName_zero_fresh i hi1 hi2
  · obtain ⟨i, hi1, hi2, hname, -⟩ := (forall₂_range_mem hs.menu).1 m hm
    rw [hname]; exact productName_zero_fresh i hi1 hi2

/-- C6 fails at the draw 0: `Math.ceil(0 * 5)` is 0, outside `[1, 5]`, and when
every draw is 0 each item of each of the 100 order documents that
`populateMongo` inserts has quantity 0. -/
theorem randomQuantity_zero_draw :
    randomQuantity 0 = 0 ∧ ¬ (1 ≤ randomQuantity 0 ∧ randomQuantity 0 ≤ 5) ∧
    (populateMongo envZero (start noSchema noDocuments)).2.mongo.orders.length = 100 ∧
    ∀ o ∈ (populateMongo envZero (start noSchema noDocuments)).2.mongo.orders,
      o.items.length = 5 ∧ ∀ it ∈ o.items, it.quantity = 0 := by
  obtain ⟨_, w1, h1, hs⟩ :=
    populateMongo_spec envZero (fun _ => rfl) (start noSchema noDocuments) rfl
  rw [h1]
  have hz := random_ids_zero
  refine ⟨hz.2.2.2, by rw [hz.2.2.2]; omega, hs.orders_length, fun o ho => ?_⟩
  obtain ⟨-, -, hlen, hitems⟩ := hs.orders o ho
  refine ⟨hlen, fun it hit => ?_⟩
  obtain ⟨-, k, hk⟩ := hitems it hit
  rw [hk]; exact hz.2.2.2

/-! ## Reset -/

theorem resetScript_fresh (db : PgDb) : resetScript db = .ok freshSchema := rfl

theorem reset_phases (env : Env) (hf : ∀ k, k < 6 → env.fault k = false) (pg : PgDb)
    (mongo : MongoDb) :
    (initPostgres env >>= fun _ => initMongo env) (start pg mongo) = (.ok (), afterReset) := by
  have h0 := hf 0 (by norm_num)
  have h1 := hf 1 (by norm_num)
  have h2 := hf 2 (by norm_num)
  have h3 := hf 3 (by norm_num)
  have h4 := hf 4 (by norm_num)
  have h5 := hf 5 (by norm_num)
  simp [initPostgres, initMongo, phase, plainCall, pgCall, mongoCall, storeCall, emit,
    bind_apply, start, resetScript_fresh, afterReset, noDocuments, h0, h1, h2, h3, h4, h5]

theorem phases_after_reset (env : Env) (hf : ∀ k, k < 6 → env.fault k = false) (pg : PgDb)
    (mongo : MongoDb) :
    phases env (start pg mongo) =
      (populatePostgres env >>= fun _ => populateMongo env >>= fun _ => testPerformance env)
        afterReset := by
  have h := reset_phases env hf pg mongo
  rw [bind_apply] at h
  have hp : phases env = (initPostgres env >>= fun _ => initMongo env >>= fun _ =>
      populatePostgres env >>= fun _ => populateMongo env >>= fun _ => testPerformance env) :=
    rfl
  rw [hp, bind_apply]
  rcases h1 : initPostgres env (start pg mongo) with ⟨r, w1⟩
  rw [h1] at h
  cases r with
  | error e => simp at h
  | ok u =>
    simp only at h ⊢
    rw [bind_apply, h]

theorem main_after_reset (env : Env) (hf : ∀ k, k < 6 → env.fault k = false) (pg : PgDb)
    (mongo : MongoDb) :
    main env (start pg mongo) = main env (start noSchema noDocuments) := by
  simp only [main, tryCatchFinally, phases_after_reset env hf]

/-- C8: when the six store calls of the two reset phases are not rejected, then
for every prior content of the two stores (a) after `initPostgres` and
`initMongo` the relational store is the fresh schema of five empty relations and
the three collections are empty, (b) the stores a whole run leaves are those the
same run leaves from stores that held nothing, hence independent of the prior
content, and (c) a second run started on what the first run left ends with the
same stores as the first. -/
theorem reset_idempotent (env : Env) (hf : ∀ k, k < 6 → env.fault k = false) (pg : PgDb)
    (mongo : MongoDb) :
    ((initPostgres env >>= fun _ => initMongo env) (start pg mongo)).1 = .ok () ∧
    ((initPostgres env >>= fun _ => initMongo env) (start pg mongo)).2.pg = freshSchema ∧
    ((initPostgres env >>= fun _ => initMongo env) (start pg mongo)).2.mongo = noDocuments ∧
    (main env (start pg mongo)).2.pg = (main env (start noSchema noDocuments)).2.pg ∧
    (main env (start pg mongo)).2.mongo = (main env (start noSchema noDocuments)).2.mongo ∧
    (main env (start (main env (start pg mongo)).2.pg (main env (start pg mongo)).2.mongo)).2.pg =
      (main env (start pg mongo)).2.pg ∧
    (main env (start (main env (start pg mongo)).2.pg (main env (start pg mongo)).2.mongo)).2.mongo =
      (main env (start pg mongo)).2.mongo := by
  rw [reset_phases env hf pg mongo]
  refine ⟨rfl, rfl, rfl, ?_, ?_, ?_, ?_⟩
  · rw [main_after_reset env hf pg mongo]
  · rw [main_after_reset env hf pg mongo]
  · rw [main_after_reset env hf (main env (start pg mongo)).2.pg, main_after_reset env hf pg mongo]
  · rw [main_after_reset env hf (main env (start pg mongo)).2.pg, main_after_reset env hf pg mongo]

/-- Witness of C8: stale rows and documents in both stores, no rejected call. -/
theorem reset_idempotent_witness :
    (∀ k, k < 6 → envHalf.fault k = false) ∧
    ((initPostgres envHalf >>= fun _ => initMongo envHalf) (start stalePg staleMongo)).2.pg =
      freshSchema ∧
    ((initPostgres envHalf >>= fun _ => initMongo envHalf) (start stalePg staleMongo)).2.mongo =
      noDocuments ∧
    (main envHalf (start stalePg staleMongo)).2.pg =
      (main envHalf (start noSchema noDocuments)).2.pg ∧
    (main envHalf (start stalePg staleMongo)).2.mongo =
      (main envHalf (start noSchema noDocuments)).2.mongo :=
  ⟨fun _ _ => rfl,
    (reset_idempotent envHalf (fun _ _ => rfl) stalePg staleMongo).2.1,
    (reset_idempotent envHalf (fun _ _ => rfl) stalePg staleMongo).2.2.1,
    (reset_idempotent envHalf (fun _ _ => rfl) stalePg staleMongo).2.2.2.1,
    (reset_idempotent envHalf (fun _ _ => rfl) stalePg staleMongo).2.2.2.2.1⟩

/-! ## Seeding the relational store -/

theorem pickCategory_cases (r : ℚ) (h : IsDraw r) :
    ∃ c, pickCategory r = some c ∧ (c = "Drinks" ∨ c = "Snacks" ∨ c = "Meals") := by
  obtain ⟨hlo, hhi⟩ := mathFloor_range r categories.length 1 h (by decide) (by decide)
    (by decide)
  unfold pickCategory jsIndex
  generalize mathFloor (jsMul r (categories.length : ℚ)) = i at hlo hhi
  have h3 : (categories.length : ℤ) = 3 := rfl
  rw [h3] at hhi
  interval_cases i <;> simp [categories]

theorem keyed_fresh {ρ : Type} (key : ρ → ℤ) (R : ρ → Prop) :
    Keyed key R 0 (Relation.fresh : Relation ρ) := by
  simp [Keyed, Relation.fresh]

theorem keyed_insert {ρ : Type} {key : ρ → ℤ} {R : ρ → Prop} {n : ℕ} {rel : Relation ρ}
    (h : Keyed key R n rel) (mk : ℤ → ρ) (hkey : key (mk rel.nextId) = rel.nextId)
    (hR : R (mk rel.nextId)) : Keyed key R (n + 1) (rel.insert mk) := by
  obtain ⟨h1, h2, h3⟩ := h
  refine ⟨?_, ?_, ?_⟩
  · simp [Relation.insert, h1]
  · simp only [Relation.insert, List.map_append, h2, List.range'_concat, List.map_cons,
      List.map_nil]
    rw [hkey, h1]
    congr 2
    push_cast
    ring
  · intro x hx
    simp only [Relation.insert, List.mem_append, List.mem_singleton] at hx
    rcases hx with hx | rfl
    · exact h3 x hx
    · exact hR

theorem keyed_length {ρ : Type} {key : ρ → ℤ} {R : ρ → Prop} {n : ℕ} {rel : Relation ρ}
    (h : Keyed key R n rel) : rel.rows.length = n := by
  have := congrArg List.length h.2.1
  simpa using this

theorem hasKey_keyed {ρ : Type} {key : ρ → ℤ} {R : ρ → Prop} {n : ℕ} {rel : Relation ρ}
    (h : Keyed key R n rel) (c : ℤ) : hasKey key (some rel) c = true ↔ 1 ≤ c ∧ c ≤ n := by
  have hmem : hasKey key (some rel) c = true ↔
      c ∈ (List.range' 1 n).map (fun i : ℕ => (i : ℤ)) := by
    simp [hasKey, h.2.1]
  rw [hmem, List.mem_map]
  constructor
  · rintro ⟨i, hi, rfl⟩
    rw [List.mem_range'_1] at hi
    constructor <;> omega
  · rintro ⟨h1, h2⟩
    exact ⟨c.toNat, List.mem_range'_1.mpr ⟨by omega, by omega⟩,
      Int.toNat_of_nonneg (by omega)⟩

theorem triple_pgCall {α : Type} (env : Env) (hf : ∀ k, env.fault k = false) (c : Call)
    (stmt : PgDb → Except Err α × PgDb) (P : World → Prop) (Q : α → World → Prop)
    (h : ∀ w, P w → ∃ a db, stmt w.pg = (.ok a, db) ∧
      Q a { w with calls := w.calls + 1, pg := db, trace := w.trace ++ [.call c true] }) :
    Triple P (pgCall env c stmt) Q := by
  refine triple_storeCall env hf c _ P Q (fun w hw => ?_)
  obtain ⟨a, db, h1, h2⟩ := h w hw
  exact ⟨a, { w with calls := w.calls + 1, pg := db }, by simp [h1], h2⟩

theorem insertCustomer_seeded {nc nt np : ℕ} {db : PgDb} (h : SeededBase nc nt np db)
    (phone : Option String) :
    ∃ db1, insertCustomer db (some (customerName ((1 + nc : ℕ) : ℤ))) phone = (.ok (), db1) ∧
      SeededBase (nc + 1) nt np db1 ∧ db1.orders = db.orders ∧
      db1.order_items = db.order_items := by
  obtain ⟨cs, ts, ps, hc, ht, hp, kc, kt, kp⟩ := h
  refine ⟨{ db with customers := some (cs.insert fun id =>
      ⟨id, customerName ((1 + nc : ℕ) : ℤ), phone⟩) },
    by simp only [insertCustomer, hc], ⟨_, ts, ps, rfl, ht, hp, ?_, kt, kp⟩, rfl, rfl⟩
  refine keyed_insert kc _ rfl ?_
  simp only [kc.1]
  congr 1
  push_cast
  ring

theorem insertTable_seeded {nc nt np : ℕ} {db : PgDb} (h : SeededBase nc nt np db) :
    ∃ db1, insertTable db (some ((1 + nt : ℕ) : ℤ)) "free" = (.ok (), db1) ∧
      SeededBase nc (nt + 1) np db1 ∧ db1.orders = db.orders ∧
      db1.order_items = db.order_items := by
  obtain ⟨cs, ts, ps, hc, ht, hp, kc, kt, kp⟩ := h
  refine ⟨{ db with tables := some (ts.insert fun id => ⟨id, ((1 + nt : ℕ) : ℤ), "free"⟩) },
    by simp [insertTable, ht], ⟨cs, _, ps, hc, rfl, hp, kc, ?_, kp⟩, rfl, rfl⟩
  refine keyed_insert kt _ rfl ⟨?_, rfl⟩
  simp only [kt.1]
  push_cast
  ring

theorem insertProduct_seeded {nc nt np : ℕ} {db : PgDb} (h : SeededBase nc nt np db)
    (r1 r2 : ℚ) (h1 : IsDraw r1) (h2 : IsDraw r2) :
    ∃ db1, insertProduct db (some (productName ((1 + np : ℕ) : ℤ))) (pickCategory r1)
        (some (randomPrice r2)) = (.ok (), db1) ∧
      SeededBase nc nt (np + 1) db1 ∧ db1.orders = db.orders ∧
      db1.order_items = db.order_items := by
  obtain ⟨cs, ts, ps, hc, ht, hp, kc, kt, kp⟩ := h
  obtain ⟨c, hcat, hcats⟩ := pickCategory_cases r1 h1
  refine ⟨{ db with products := some (ps.insert fun id =>
      ⟨id, productName ((1 + np : ℕ) : ℤ), c, randomPrice r2⟩) },
    by simp only [insertProduct, hp, hcat], ⟨cs, ts, _, hc, ht, rfl, kc, kt, ?_⟩, rfl, rfl⟩
  refine keyed_insert kp _ rfl ⟨?_, hcats, randomPrice_hundredths r2 h2⟩
  simp only [kp.1]
  congr 1
  push_cast
  ring

theorem seedCustomers_spec (env : Env) (hf : ∀ k, env.fault k = false)
    (os : Option (Relation Order)) (is : Option (Relation OrderItem)) :
    Triple (fun w => SeededBase 0 0 0 w.pg ∧ w.pg.orders = os ∧ w.pg.order_items = is)
      (seedCustomers env)
      (fun _ w => SeededBase 50 0 0 w.pg ∧ w.pg.orders = os ∧ w.pg.order_items = is) := by
  refine triple_fanOut (fun i (a : String × String) => a.1 = customerName (i : ℤ)) 50 1 _ _
    (fun w => SeededBase 0 0 0 w.pg ∧ w.pg.orders = os ∧ w.pg.order_items = is)
    (fun i w => SeededBase i 0 0 w.pg ∧ w.pg.orders = os ∧ w.pg.order_items = is)
    (fun i _ => ?_) (fun _ h => h) (fun i a _ ha => ?_)
  · exact triple_bind (triple_random env _
      (fun _ w => SeededBase 0 0 0 w.pg ∧ w.pg.orders = os ∧ w.pg.order_items = is)
      (fun w hw => hw)) (fun r => triple_pure _ (fun w hw => ⟨rfl, hw⟩))
  · refine triple_pgCall env hf _ _ _ _ (fun w hw => ?_)
    obtain ⟨db1, h1, hs, ho, hi⟩ := insertCustomer_seeded hw.1 (some a.2)
    refine ⟨(), db1, ?_, hs, ho.trans hw.2.1, hi.trans hw.2.2⟩
    rw [ha]
    exact h1

theorem seedTables_spec (env : Env) (hf : ∀ k, env.fault k = false)
    (os : Option (Relation Order)) (is : Option (Relation OrderItem)) :
    Triple (fun w => SeededBase 50 0 0 w.pg ∧ w.pg.orders = os ∧ w.pg.order_items = is)
      (seedTables env)
      (fun _ w => SeededBase 50 20 0 w.pg ∧ w.pg.orders = os ∧ w.pg.order_items = is) := by
  refine triple_forLoop 20 1 _
    (fun i w => SeededBase 50 i 0 w.pg ∧ w.pg.orders = os ∧ w.pg.order_items = is)
    (fun i _ => ?_)
  refine triple_pgCall env hf _ _ _ _ (fun w hw => ?_)
  obtain ⟨db1, h1, hs, ho, hi⟩ := insertTable_seeded hw.1
  exact ⟨(), db1, h1, hs, ho.trans hw.2.1, hi.trans hw.2.2⟩

theorem seedProducts_spec (env : Env) (hf : ∀ k, env.fault k = false)
    (hr : ∀ k, IsDraw (env.random k))
    (os : Option (Relation Order)) (is : Option (Relation OrderItem)) :
    Triple (fun w => SeededBase 50 20 0 w.pg ∧ w.pg.orders = os ∧ w.pg.order_items = is)
      (seedProducts env)
      (fun _ w => SeededBase 50 20 30 w.pg ∧ w.pg.orders = os ∧ w.pg.order_items = is) := by
  refine triple_fanOut
    (fun i (a : String × Option String × Fixed2) => ∃ r1 r2, IsDraw r1 ∧ IsDraw r2 ∧
      a = (productName (i : ℤ), pickCategory r1, randomPrice r2)) 30 1 _ _
    (fun w => SeededBase 50 20 0 w.pg ∧ w.pg.orders = os ∧ w.pg.order_items = is)
    (fun i w => SeededBase 50 20 i w.pg ∧ w.pg.orders = os ∧ w.pg.order_items = is)
    (fun i _ => ?_) (fun _ h => h) (fun i a _ ha => ?_)
  · refine triple_bind (triple_random env _
      (fun r w => IsDraw r ∧
        SeededBase 50 20 0 w.pg ∧ w.pg.orders = os ∧ w.pg.order_items = is)
      (fun w hw => ⟨hr _, hw⟩)) (fun r1 => ?_)
    refine triple_bind (triple_random env _
      (fun r w => (IsDraw r1 ∧ IsDraw r) ∧
        SeededBase 50 20 0 w.pg ∧ w.pg.orders = os ∧ w.pg.order_items = is)
      (fun w hw => ⟨⟨hw.1, hr _⟩, hw.2⟩)) (fun r2 => ?_)
    exact triple_pure _ (fun w hw => ⟨⟨r1, r2, hw.1.1, hw.1.2, rfl⟩, hw.2⟩)
  · obtain ⟨r1, r2, h1, h2, rfl⟩ := ha
    refine triple_pgCall env hf _ _ _ _ (fun w hw => ?_)
    obtain ⟨db1, h3, hs, ho, hi⟩ := insertProduct_seeded hw.1 r1 r2 h1 h2
    exact ⟨(), db1, h3, hs, ho.trans hw.2.1, hi.trans hw.2.2⟩

theorem itemsInv_fresh : ItemsInv 0 0 (Relation.fresh : Relation OrderItem) := by
  refine ⟨rfl, fun _ h => absurd h (List.not_mem_nil _), fun k h1 h2 => ?_, rfl⟩
  exfalso
  push_cast at h2
  omega

theorem itemsInv_next {full : ℕ} {rel : Relation OrderItem} (h : ItemsInv full 5 rel) :
    ItemsInv (full + 1) 0 rel := by
  obtain ⟨h1, h2, h3, h4⟩ := h
  refine ⟨by omega, fun it hit => ?_, fun k hk1 hk2 => ?_, ?_⟩
  · obtain ⟨⟨a, b⟩, c, d⟩ := h2 it hit
    exact ⟨⟨a, by push_cast; omega⟩, c, d⟩
  · push_cast at hk2
    rcases (show k ≤ (full : ℤ) ∨ k = (full : ℤ) + 1 by omega) with hk | rfl
    · exact h3 k hk1 hk
    · exact h4
  · unfold itemsOf
    rw [List.countP_eq_zero]
    intro it hit
    have := (h2 it hit).1.2
    simp only [decide_eq_true_eq]
    push_cast
    omega

theorem insertOrderItem_seeded {full cur : ℕ} {db : PgDb} (h : OrdersInv (full + 1) full cur db)
    (r1 r2 : ℚ) (h1 : IsDraw r1 ∧ 0 < r1) (h2 : IsDraw r2 ∧ 0 < r2) :
    ∃ db1, insertOrderItem db (some ((full : ℤ) + 1)) (some (randomProductId r1))
        (some (randomQuantity r2)) = (.ok (), db1) ∧ OrdersInv (full + 1) full (cur + 1) db1 := by
  obtain ⟨hbase, os, is, ho, hi, ko, hinv⟩ := h
  obtain ⟨cs, ts, ps, hc, ht, hp, kc, kt, kp⟩ := hbase
  obtain ⟨-, -, hpid, -⟩ := random_ids_in_range r1 h1.1 h1.2
  obtain ⟨-, -, -, hq⟩ := random_ids_in_range r2 h2.1 h2.2
  have hko : hasKey Order.id (some os) ((full : ℤ) + 1) = true :=
    (hasKey_keyed ko _).mpr ⟨by omega, by push_cast; omega⟩
  have hkp : hasKey Product.id (some ps) (randomProductId r1) = true :=
    (hasKey_keyed kp _).mpr ⟨hpid.1, by exact_mod_cast hpid.2⟩
  refine ⟨{ db with order_items := some (is.insert fun id =>
      ⟨id, (full : ℤ) + 1, randomProductId r1, randomQuantity r2⟩) },
    by simp [insertOrderItem, hi, ho, hp, hko, hkp],
    ⟨cs, ts, ps, hc, ht, hp, kc, kt, kp⟩, os, _, ho, rfl, ko, ?_⟩
  obtain ⟨i1, i2, i3, i4⟩ := hinv
  refine ⟨by simp [Relation.insert, i1]; omega, fun it hit => ?_, fun k hk1 hk2 => ?_, ?_⟩
  · simp only [Relation.insert, List.mem_append, List.mem_singleton] at hit
    rcases hit with hit | rfl
    · exact i2 it hit
    · exact ⟨⟨by show (1 : ℤ) ≤ (full : ℤ) + 1; omega, le_refl _⟩, hpid, hq⟩
  · have hne : ¬ ((full : ℤ) + 1 = k) := by omega
    simp [Relation.insert, itemsOf, hne]
    exact i3 k hk1 hk2
  · simp [Relation.insert, itemsOf]
    exact i4

theorem insertOrder_seeded {no : ℕ} {db : PgDb} (h : OrdersInv no no 0 db)
    (r1 r2 : ℚ) (h1 : IsDraw r1 ∧ 0 < r1) (h2 : IsDraw r2 ∧ 0 < r2) (now : ℕ) :
    ∃ db1, insertOrder db (some (randomCustomerId r1)) (some (randomTableId r2)) now =
        (.ok ((no : ℤ) + 1), db1) ∧ OrdersInv (no + 1) no 0 db1 := by
  obtain ⟨hbase, os, is, ho, hi, ko, hinv⟩ := h
  obtain ⟨cs, ts, ps, hc, ht, hp, kc, kt, kp⟩ := hbase
  obtain ⟨hcid, -, -, -⟩ := random_ids_in_range r1 h1.1 h1.2
  obtain ⟨-, htid, -, -⟩ := random_ids_in_range r2 h2.1 h2.2
  have hkc : hasKey Customer.id (some cs) (randomCustomerId r1) = true :=
    (hasKey_keyed kc _).mpr ⟨hcid.1, by exact_mod_cast hcid.2⟩
  have hkt : hasKey CafeTable.id (some ts) (randomTableId r2) = true :=
    (hasKey_keyed kt _).mpr ⟨htid.1, by exact_mod_cast htid.2⟩
  refine ⟨{ db with orders := some (os.insert fun id =>
      ⟨id, randomCustomerId r1, randomTableId r2, now⟩) },
    by simp [insertOrder, ho, hc, ht, hkc, hkt, ko.1],
    ⟨cs, ts, ps, hc, ht, hp, kc, kt, kp⟩, _, is, rfl, hi, ?_, hinv⟩
  exact keyed_insert ko _ rfl ⟨hcid, htid⟩

theorem seedOrderItems_spec (env : Env) (hf : ∀ k, env.fault k = false)
    (hr : ∀ k, IsDraw (env.random k) ∧ 0 < env.random k) (full : ℕ) :
    Triple (fun w => OrdersInv (full + 1) full 0 w.pg) (seedOrderItems env ((full : ℤ) + 1))
      (fun _ w => OrdersInv (full + 1) (full + 1) 0 w.pg) := by
  have hloop := triple_forLoop 5 1
    (fun _ => do
      let r1 ← random env
      let r2 ← random env
      pgCall env .pgInsertOrderItem fun db =>
        insertOrderItem db (some ((full : ℤ) + 1)) (some (randomProductId r1))
          (some (randomQuantity r2)))
    (fun j w => OrdersInv (full + 1) full j w.pg) (fun j _ => ?_)
  · refine triple_conseq hloop (fun _ h => h) (fun _ w h => ?_)
    obtain ⟨hbase, os, is, ho, hi, ko, hinv⟩ := h
    exact ⟨hbase, os, is, ho, hi, ko, itemsInv_next hinv⟩
  · refine triple_bind (triple_random env _
      (fun r w => (IsDraw r ∧ 0 < r) ∧ OrdersInv (full + 1) full j w.pg)
      (fun w hw => ⟨hr _, hw⟩)) (fun r1 => ?_)
    refine triple_bind (triple_random env _
      (fun r w => ((IsDraw r1 ∧ 0 < r1) ∧ IsDraw r ∧ 0 < r) ∧ OrdersInv (full + 1) full j w.pg)
      (fun w hw => ⟨⟨hw.1, hr _⟩, hw.2⟩)) (fun r2 => ?_)
    refine triple_pgCall env hf _ _ _ _ (fun w hw => ?_)
    obtain ⟨db1, h1, hs⟩ := insertOrderItem_seeded hw.2 r1 r2 hw.1.1 hw.1.2
    exact ⟨(), db1, h1, hs⟩

theorem seedOrders_spec (env : Env) (hf : ∀ k, env.fault k = false)
    (hr : ∀ k, IsDraw (env.random k) ∧ 0 < env.random k) :
    Triple (fun w => OrdersInv 0 0 0 w.pg) (seedOrders env)
      (fun _ w => OrdersInv 100 100 0 w.pg) := by
  refine triple_forLoop 100 1 _ (fun i w => OrdersInv i i 0 w.pg) (fun i _ => ?_)
  refine triple_bind (triple_random env _
    (fun r w => (IsDraw r ∧ 0 < r) ∧ OrdersInv i i 0 w.pg)
    (fun w hw => ⟨hr _, hw⟩)) (fun r1 => ?_)
  refine triple_bind (triple_random env _
    (fun r w => ((IsDraw r1 ∧ 0 < r1) ∧ IsDraw r ∧ 0 < r) ∧ OrdersInv i i 0 w.pg)
    (fun w hw => ⟨⟨hw.1, hr _⟩, hw.2⟩)) (fun r2 => ?_)
  refine triple_bind
    (Q := fun (orderId : ℤ) w => orderId = (i : ℤ) + 1 ∧ OrdersInv (i + 1) i 0 w.pg)
    (triple_storeCall env hf _ _ _ _ (fun w hw => ?_)) (fun orderId => ?_)
  · obtain ⟨db1, h1, hs⟩ := insertOrder_seeded hw.2 r1 r2 hw.1.1 hw.1.2 (env.now (w.calls + 1))
    exact ⟨(i : ℤ) + 1, { w with calls := w.calls + 1, pg := db1 }, by simp [h1], rfl, hs⟩
  · intro w hw
    obtain ⟨rfl, hinv⟩ := hw
    exact seedOrderItems_spec env hf hr i w hinv

theorem bind_ok {α β : Type} {m : M α} {f : α → M β} {w w1 : World} {a : α}
    (h : m w = (.ok a, w1)) : (m >>= f) w = f a w1 := by
  rw [bind_apply, h]

theorem bind_error {α β : Type} {m : M α} {f : α → M β} {w w1 : World} {e : Err}
    (h : m w = (.error e, w1)) : (m >>= f) w = (.error e, w1) := by
  rw [bind_apply, h]

theorem seededBase_fresh : SeededBase 0 0 0 freshSchema :=
  ⟨_, _, _, rfl, rfl, rfl, keyed_fresh _ _, keyed_fresh _ _, keyed_fresh _ _⟩

theorem seedOrders_rejects (env : Env) (hf : ∀ k, env.fault k = false) (w : World)
    (hz : env.random w.draws = 0) (h : SeededBase 50 20 30 w.pg) (os : Relation Order)
    (ho : w.pg.orders = some os) :
    seedOrders env w =
      (.error (.foreignKey "orders" "customer_id"),
        { w with draws := w.draws + 2, calls := w.calls + 1,
                 pg := { w.pg with orders := some os.skip },
                 trace := w.trace ++ [.call .pgInsertOrder false] }) := by
  obtain ⟨cs, ts, ps, hc, ht, hp, kc, kt, kp⟩ := h
  have hk : hasKey Customer.id (some cs) 0 = false := by
    have := hasKey_keyed kc 0
    simpa using this
  have hbody : (do
      let r1 ← random env
      let customerId := randomCustomerId r1
      let r2 ← random env
      let tableId := randomTableId r2
      let orderId ← storeCall env .pgInsertOrder fun w =>
        let (r, db) := insertOrder w.pg (some customerId) (some tableId) (env.now w.calls)
        (r, { w with pg := db })
      seedOrderItems env orderId : M Unit) w =
      (.error (.foreignKey "orders" "customer_id"),
        { w with draws := w.draws + 2, calls := w.calls + 1,
                 pg := { w.pg with orders := some os.skip },
                 trace := w.trace ++ [.call .pgInsertOrder false] }) := by
    simp [bind_apply, random, storeCall, hf, hz, insertOrder, ho, hc, hk, random_ids_zero]
  exact bind_error hbody

/-- With binary64 draws strictly between 0 and 1 and no rejected call,
`populatePostgres` ends normally on the fresh schema and leaves the seed
complete. -/
theorem populatePostgres_spec (env : Env) (hf : ∀ k, env.fault k = false)
    (hr : ∀ k, IsDraw (env.random k) ∧ 0 < env.random k) :
    Triple (fun w => w.pg = freshSchema) (populatePostgres env)
      (fun _ w => OrdersInv 100 100 0 w.pg) := by
  refine triple_phase _ (fun w => w.pg = freshSchema) _ _ _ ?_ (fun w hw => hw)
  refine triple_bind
    (triple_conseq (seedCustomers_spec env hf (some Relation.fresh) (some Relation.fresh))
      (fun w hw => by rw [hw]; exact ⟨seededBase_fresh, rfl, rfl⟩) (fun _ _ h => h))
    (fun _ => triple_bind (seedTables_spec env hf _ _) (fun _ =>
      triple_bind (seedProducts_spec env hf (fun k => (hr k).1) _ _) (fun _ =>
        triple_bind
          (triple_conseq (seedOrders_spec env hf hr)
            (fun w hw => ⟨hw.1, _, _, hw.2.1, hw.2.2, keyed_fresh _ _, itemsInv_fresh⟩)
            (fun _ _ h => h))
          (fun _ => triple_emit _ _ _ (fun w hw => hw)))))

theorem phase_error {α : Type} {p : Phase} {body : M α} {w w1 : World} {e : Err}
    (h : body { w with trace := w.trace ++ [.phase p] } = (.error e, w1)) :
    phase p body w = (.error e, { w1 with trace := w1.trace ++ [.phaseFailed p] }) := by
  simp [phase, h]

theorem populatePostgres_zero (env : Env) (hf : ∀ k, env.fault k = false)
    (hz : ∀ k, env.random k = 0) (w : World) (hw : w.pg = freshSchema) :
    ∃ w1, populatePostgres env w = (.error (.foreignKey "orders" "customer_id"), w1) ∧
      SeededBase 50 20 30 w1.pg ∧ w1.pg.orders = some (Relation.skip Relation.fresh) ∧
      w1.pg.order_items = some Relation.fresh := by
  have hr : ∀ k, IsDraw (env.random k) := fun k => by rw [hz k]; exact isDraw_zero
  obtain ⟨_, w1, h1, hq1⟩ := seedCustomers_spec env hf (some Relation.fresh)
    (some Relation.fresh) { w with trace := w.trace ++ [.phase .populateRelational] }
    (by simp only [hw]; exact ⟨seededBase_fresh, rfl, rfl⟩)
  obtain ⟨_, w2, h2, hq2⟩ := seedTables_spec env hf _ _ w1 hq1
  obtain ⟨_, w3, h3, hq3⟩ := seedProducts_spec env hf hr _ _ w2 hq2
  obtain ⟨w4, h4, hpg4⟩ : ∃ w4, seedOrders env w3 =
      (.error (.foreignKey "orders" "customer_id"), w4) ∧
      w4.pg = { w3.pg with orders := some (Relation.skip Relation.fresh) } :=
    ⟨_, seedOrders_rejects env hf w3 (hz _) hq3.1 _ hq3.2.1, rfl⟩
  have hbody : (seedCustomers env >>= fun _ => seedTables env >>= fun _ =>
      seedProducts env >>= fun _ => seedOrders env >>= fun _ =>
        emit (.consoleLog "PostgreSQL insert Query Time:"))
      { w with trace := w.trace ++ [.phase .populateRelational] } =
      (.error (.foreignKey "orders" "customer_id"), w4) := by
    rw [bind_ok h1, bind_ok h2, bind_ok h3, bind_error h4]
  refine ⟨{ w4 with trace := w4.trace ++ [.phaseFailed .populateRelational] },
    phase_error hbody, ?_, ?_, ?_⟩
  · obtain ⟨cs, ts, ps, hc, ht, hp, kc, kt, kp⟩ := hq3.1
    exact ⟨cs, ts, ps, by simp [hpg4, hc], by simp [hpg4, ht], by simp [hpg4, hp], kc, kt, kp⟩
  · simp [hpg4]
  · simp [hpg4, hq3.2.2]

/-- C1 fails at the draw 0: when every draw is 0 and no store call is rejected
from outside, `populatePostgres` on the fresh schema throws the foreign-key
violation of the first order insert (`customer_id` 0) and leaves 50 customers,
20 tables, 30 products, no order and no order item. -/
theorem populatePostgres_rejected_at_zero :
    (populatePostgres envZero (start freshSchema noDocuments)).1 =
      .error (.foreignKey "orders" "customer_id") ∧
    (rowsOf (populatePostgres envZero (start freshSchema noDocuments)).2.pg.customers).length
      = 50 ∧
    (rowsOf (populatePostgres envZero (start freshSchema noDocuments)).2.pg.tables).length
      = 20 ∧
    (rowsOf (populatePostgres envZero (start freshSchema noDocuments)).2.pg.products).length
      = 30 ∧
    (rowsOf (populatePostgres envZero (start freshSchema noDocuments)).2.pg.orders).length
      = 0 ∧
    (rowsOf (populatePostgres envZero (start freshSchema noDocuments)).2.pg.order_items).length
      = 0 := by
  obtain ⟨w1, h1, ⟨cs, ts, ps, hc, ht, hp, kc, kt, kp⟩, ho, hi⟩ :=
    populatePostgres_zero envZero (fun _ => rfl) (fun _ => rfl)
      (start freshSchema noDocuments) rfl
  rw [h1]
  simp only [hc, ht, hp, ho, hi, rowsOf]
  exact ⟨trivial, keyed_length kc, keyed_length kt, keyed_length kp, rfl, rfl⟩

/-- C4 fails at the draw 0: the references generated from the draw 0 are all 0,
and in the store that the all-zero run leaves after seeding customers, tables
and products no customer, table or product has the key 0. -/
theorem references_dangle_at_zero :
    randomCustomerId 0 = 0 ∧ randomTableId 0 = 0 ∧ randomProductId 0 = 0 ∧
    hasKey Customer.id (populatePostgres envZero (start freshSchema noDocuments)).2.pg.customers
      (randomCustomerId 0) = false ∧
    hasKey CafeTable.id (populatePostgres envZero (start freshSchema noDocuments)).2.pg.tables
      (randomTableId 0) = false ∧
    hasKey Product.id (populatePostgres envZero (start freshSchema noDocuments)).2.pg.products
      (randomProductId 0) = false := by
  obtain ⟨w1, h1, ⟨cs, ts, ps, hc, ht, hp, kc, kt, kp⟩, -, -⟩ :=
    populatePostgres_zero envZero (fun _ => rfl) (fun _ => rfl)
      (start freshSchema noDocuments) rfl
  have hz := random_ids_zero
  rw [h1]
  simp only [hc, ht, hp, hz.1, hz.2.1, hz.2.2.1]
  have e1 := hasKey_keyed kc 0
  have e2 := hasKey_keyed kt 0
  have e3 := hasKey_keyed kp 0
  refine ⟨trivial, trivial, trivial, ?_, ?_, ?_⟩
  · simpa using e1
  · simpa using e2
  · simpa using e3

/-- With binary64 draws strictly between 0 and 1 and no rejected call,
`populatePostgres` on the fresh schema ends normally and leaves 50 customers,
20 tables, 30 products, 100 orders and 500 order items, 5 for each order id;
every reference of an order or an order item is the key of an existing row and
every quantity lies in `[1, 5]`. -/
theorem populatePostgres_seeds (env : Env) (hf : ∀ k, env.fault k = false)
    (hr : ∀ k, IsDraw (env.random k) ∧ 0 < env.random k) (w : World) (hw : w.pg = freshSchema) :
    (populatePostgres env w).1 = .ok () ∧
    (rowsOf (populatePostgres env w).2.pg.customers).length = 50 ∧
    (rowsOf (populatePostgres env w).2.pg.tables).length = 20 ∧
    (rowsOf (populatePostgres env w).2.pg.products).length = 30 ∧
    (rowsOf (populatePostgres env w).2.pg.orders).length = 100 ∧
    (rowsOf (populatePostgres env w).2.pg.order_items).length = 500 ∧
    (∀ k : ℤ, 1 ≤ k → k ≤ 100 →
      itemsOf (rowsOf (populatePostgres env w).2.pg.order_items) k = 5) ∧
    (∀ o ∈ rowsOf (populatePostgres env w).2.pg.orders,
      (1 ≤ o.customer_id ∧ o.customer_id ≤ 50) ∧ (1 ≤ o.table_id ∧ o.table_id ≤ 20) ∧
      hasKey Customer.id (populatePostgres env w).2.pg.customers o.customer_id = true ∧
      hasKey CafeTable.id (populatePostgres env w).2.pg.tables o.table_id = true) ∧
    (∀ it ∈ rowsOf (populatePostgres env w).2.pg.order_items,
      (1 ≤ it.product_id ∧ it.product_id ≤ 30) ∧ (1 ≤ it.quantity ∧ it.quantity ≤ 5) ∧
      hasKey Order.id (populatePostgres env w).2.pg.orders it.order_id = true ∧
      hasKey Product.id (populatePostgres env w).2.pg.products it.product_id = true) := by
  obtain ⟨_, w1, h1, ⟨cs, ts, ps, hc, ht, hp, kc, kt, kp⟩, os, is, ho, hi, ko, i1, i2, i3, i4⟩ :=
    populatePostgres_spec env hf hr w hw
  rw [h1]
  simp only [hc, ht, hp, ho, hi, rowsOf]
  refine ⟨trivial, keyed_length kc, keyed_length kt, keyed_length kp, keyed_length ko,
    by rw [i1], fun k hk1 hk2 => i3 k hk1 (by exact_mod_cast hk2), fun o hO => ?_,
    fun it hit => ?_⟩
  · obtain ⟨hcid, htid⟩ := ko.2.2 o hO
    exact ⟨hcid, htid, (hasKey_keyed kc _).mpr ⟨hcid.1, by exact_mod_cast hcid.2⟩,
      (hasKey_keyed kt _).mpr ⟨htid.1, by exact_mod_cast htid.2⟩⟩
  · obtain ⟨hoid, hpid, hq⟩ := i2 it hit
    refine ⟨hpid, hq, (hasKey_keyed ko _).mpr ⟨hoid.1, ?_⟩,
      (hasKey_keyed kp _).mpr ⟨hpid.1, by exact_mod_cast hpid.2⟩⟩
    by_contra hgt
    have hcount : itemsOf is.rows it.order_id = 0 := by
      have h101 : it.order_id = ((100 : ℕ) : ℤ) + 1 := by
        have := hoid.2
        push_cast at this hgt ⊢
        omega
      rw [h101]; exact i4
    have hpos : 0 < itemsOf is.rows it.order_id :=
      List.countP_pos_iff.mpr ⟨it, hit, by simp⟩
    omega

/-! ## Properties kept by every run -/

theorem keeps_pure {α : Type} {J : PgDb → MongoDb → Prop} {R : α → Prop} (a : α) (h : R a) :
    Keeps J (pure a : M α) R :=
  fun _ hw => ⟨hw, fun b hb => by
    have : a = b := by
      have := congrArg (fun r : Except Err α => match r with | .ok x => x | .error _ => a) hb
      simpa using this
    exact this ▸ h⟩

theorem keeps_bind {α β : Type} {J : PgDb → MongoDb → Prop} {m : M α} {f : α → M β}
    {R : α → Prop} {S : β → Prop} (hm : Keeps J m R) (hf : ∀ a, R a → Keeps J (f a) S) :
    Keeps J (m >>= f) S := by
  intro w hw
  obtain ⟨h1, h2⟩ := hm w hw
  rw [bind_apply]
  rcases hmw : m w with ⟨r, w1⟩
  rw [hmw] at h1 h2
  cases r with
  | ok a => exact hf a (h2 a rfl) w1 h1
  | error e => exact ⟨h1, fun a ha => by simp at ha⟩

theorem keeps_random {J : PgDb → MongoDb → Prop} (env : Env) {R : ℚ → Prop}
    (h : ∀ k, R (env.random k)) : Keeps J (random env) R :=
  fun w hw => ⟨hw, fun a ha => by
    have : env.random w.draws = a := by
      simpa [random] using ha
    exact this ▸ h _⟩

theorem keeps_clock {J : PgDb → MongoDb → Prop} (env : Env) :
    Keeps J (clock env) (fun _ => True) :=
  fun _ hw => ⟨hw, fun _ _ => trivial⟩

theorem keeps_emit {J : PgDb → MongoDb → Prop} (ev : Event) :
    Keeps J (emit ev) (fun _ => True) :=
  fun _ hw => ⟨hw, fun _ _ => trivial⟩

theorem keeps_storeCall {α : Type} {J : PgDb → MongoDb → Prop} (env : Env) (c : Call)
    (op : World → Except Err α × World) {R : α → Prop}
    (h : ∀ w, J w.pg w.mongo → J (op w).2.pg (op w).2.mongo ∧ ∀ a, (op w).1 = .ok a → R a) :
    Keeps J (storeCall env c op) R := by
  intro w hw
  unfold storeCall
  by_cases hfault : env.fault w.calls = true
  · simp only [hfault, if_true]
    exact ⟨hw, fun a ha => by simp at ha⟩
  · have h1 := h { w with calls := w.calls + 1 } hw
    simp only [hfault]
    rcases hres : op { w with calls := w.calls + 1 } with ⟨r, w2⟩
    rw [hres] at h1
    cases r with
    | ok a => exact ⟨h1.1, fun b hb => h1.2 b (by simpa using hb)⟩
    | error e => exact ⟨h1.1, fun b hb => by simp at hb⟩

theorem keeps_pgCall {α : Type} {J : PgDb → MongoDb → Prop} (env : Env) (c : Call)
    (stmt : PgDb → Except Err α × PgDb)
    (h : ∀ db m, J db m → J (stmt db).2 m) : Keeps J (pgCall env c stmt) (fun _ => True) :=
  keeps_storeCall env c _ (fun _ hw => ⟨h _ _ hw, fun _ _ => trivial⟩)

theorem keeps_mongoCall {J : PgDb → MongoDb → Prop} (env : Env) (c : Call)
    (upd : MongoDb → MongoDb) (h : ∀ db m, J db m → J db (upd m)) :
    Keeps J (mongoCall env c upd) (fun _ => True) :=
  keeps_storeCall env c _ (fun _ hw => ⟨h _ _ hw, fun _ _ => trivial⟩)

theorem keeps_plainCall {J : PgDb → MongoDb → Prop} (env : Env) (c : Call) :
    Keeps J (plainCall env c) (fun _ => True) :=
  keeps_storeCall env c _ (fun _ hw => ⟨hw, fun _ _ => trivial⟩)

theorem keeps_forLoop {J : PgDb → MongoDb → Prop} (n : ℕ) :
    ∀ (start : ℕ) (body : ℕ → M Unit), (∀ i, Keeps J (body i) (fun _ => True)) →
      Keeps J (forLoop start n body) (fun _ => True) := by
  induction n with
  | zero => intro _ _ _; exact keeps_pure () trivial
  | succ k ih =>
    intro start body h
    unfold forLoop
    exact keeps_bind (h start) (fun _ _ => ih _ _ h)

theorem keeps_collect {α : Type} {J : PgDb → MongoDb → Prop} {R : α → Prop} (n : ℕ) :
    ∀ (start : ℕ) (body : ℕ → M α), (∀ i, Keeps J (body i) R) →
      Keeps J (collect start n body) (fun xs => ∀ x ∈ xs, R x) := by
  induction n with
  | zero => intro _ _ _; exact keeps_pure [] (fun _ h => absurd h (List.not_mem_nil _))
  | succ k ih =>
    intro start body h
    unfold collect
    refine keeps_bind (h start) (fun x hx => keeps_bind (ih _ _ h) (fun xs hxs => ?_))
    refine keeps_pure _ (fun y hy => ?_)
    rcases List.mem_cons.mp hy with rfl | hy
    · exact hx
    · exact hxs y hy

theorem keeps_sendAll {α : Type} {J : PgDb → MongoDb → Prop} {R : α → Prop}
    (send : α → M Unit) (h : ∀ a, R a → Keeps J (send a) (fun _ => True)) :
    ∀ xs : List α, (∀ x ∈ xs, R x) → Keeps J (sendAll send xs) (fun _ => True) := by
  intro xs
  induction xs with
  | nil => intro _; exact keeps_pure () trivial
  | cons x xs ih =>
    intro hxs
    unfold sendAll
    exact keeps_bind (h x (hxs x (List.mem_cons_self x xs)))
      (fun _ _ => ih (fun y hy => hxs y (List.mem_cons_of_mem x hy)))

theorem keeps_fanOut {α : Type} {J : PgDb → MongoDb → Prop} {R : α → Prop} (n start : ℕ)
    (prepare : ℕ → M α) (send : α → M Unit) (hp : ∀ i, Keeps J (prepare i) R)
    (hs : ∀ a, R a → Keeps J (send a) (fun _ => True)) :
    Keeps J (fanOut start n prepare send) (fun _ => True) :=
  keeps_bind (keeps_collect n start prepare hp) (fun xs hxs => keeps_sendAll send hs xs hxs)

theorem keeps_phase {α : Type} {J : PgDb → MongoDb → Prop} {R : α → Prop} (p : Phase)
    {body : M α} (h : Keeps J body R) : Keeps J (phase p body) R := by
  intro w hw
  have h1 := h { w with trace := w.trace ++ [.phase p] } hw
  unfold phase
  rcases hres : body { w with trace := w.trace ++ [.phase p] } with ⟨r, w1⟩
  rw [hres] at h1
  cases r with
  | ok a => exact ⟨h1.1, fun b hb => h1.2 b (by simpa using hb)⟩
  | error e => exact ⟨h1.1, fun b hb => by simp at hb⟩

theorem productsOk_of_eq {db db1 : PgDb} {m m1 : MongoDb} (h : ProductsOk db m)
    (hp : db1.products = db.products) (hm : m1.menu = m.menu) : ProductsOk db1 m1 := by
  unfold ProductsOk
  rw [hp, hm]
  exact h

theorem insertCustomer_products (db : PgDb) (n p : Option String) :
    (insertCustomer db n p).2.products = db.products := by
  unfold insertCustomer
  split
  · rfl
  · split <;> rfl

theorem insertTable_products (db : PgDb) (n : Option ℤ) (s : String) :
    (insertTable db n s).2.products = db.products := by
  unfold insertTable
  split
  · rfl
  · split
    · rfl
    · split <;> rfl

theorem insertOrder_products (db : PgDb) (c t : Option ℤ) (now : ℕ) :
    (insertOrder db c t now).2.products = db.products := by
  unfold insertOrder
  split
  · rfl
  · split
    · split
      · rfl
      · split <;> rfl
    · rfl
    · rfl

theorem insertOrderItem_products (db : PgDb) (o p q : Option ℤ) :
    (insertOrderItem db o p q).2.products = db.products := by
  unfold insertOrderItem
  split
  · rfl
  · split
    · split
      · rfl
      · split <;> rfl
    · rfl
    · rfl
    · rfl

theorem insertProduct_productsOk {db : PgDb} {m : MongoDb} (h : ProductsOk db m)
    (n category : Option String) (price : Fixed2)
    (h1 : ∃ c, category = some c ∧ GoodCategory c) (h2 : GoodPrice price) :
    ProductsOk (insertProduct db n category (some price)).2 m := by
  obtain ⟨c, rfl, hcat⟩ := h1
  unfold insertProduct
  split
  · exact h
  · rename_i rel hrel
    have hold : ∀ p ∈ rel.rows, GoodCategory p.category ∧ GoodPrice p.price := by
      have := h.1
      rw [hrel] at this
      exact this
    cases n with
    | none => exact ⟨hold, h.2⟩
    | some name =>
      refine ⟨fun p hp => ?_, h.2⟩
      simp only [rowsOf, Relation.insert, List.mem_append, List.mem_singleton] at hp
      rcases hp with hp | rfl
      · exact hold p hp
      · exact ⟨hcat, h2⟩

theorem seedOrders_keeps (env : Env) : Keeps ProductsOk (seedOrders env) (fun _ => True) :=
  keeps_forLoop _ _ _ fun _ =>
    keeps_bind (keeps_random (R := fun _ => True) env (fun _ => trivial)) fun r1 _ =>
      keeps_bind (keeps_random (R := fun _ => True) env (fun _ => trivial)) fun r2 _ =>
        keeps_bind
          (keeps_storeCall (R := fun _ => True) env _ _ (fun w hw => by
            refine ⟨?_, fun _ _ => trivial⟩
            have hp := insertOrder_products w.pg (some (randomCustomerId r1))
              (some (randomTableId r2)) (env.now w.calls)
            rcases hins : insertOrder w.pg (some (randomCustomerId r1))
              (some (randomTableId r2)) (env.now w.calls) with ⟨r, db⟩
            rw [hins] at hp
            exact productsOk_of_eq hw hp rfl))
          fun orderId _ =>
          keeps_forLoop _ _ _ fun _ =>
            keeps_bind (keeps_random (R := fun _ => True) env (fun _ => trivial)) fun _ _ =>
              keeps_bind (keeps_random (R := fun _ => True) env (fun _ => trivial)) fun _ _ =>
                keeps_pgCall env _ _ (fun _ _ h =>
                  productsOk_of_eq h (insertOrderItem_products _ _ _ _) rfl)

theorem populatePostgres_keeps (env : Env) (hr : ∀ k, IsDraw (env.random k)) :
    Keeps ProductsOk (populatePostgres env) (fun _ => True) :=
  keeps_phase _
    (keeps_bind
      (keeps_fanOut (R := fun _ => True) _ _ _ _
        (fun _ =>
          keeps_bind (keeps_random (R := fun _ => True) env (fun _ => trivial)) fun _ _ =>
            keeps_pure _ trivial)
        (fun _ _ => keeps_pgCall env _ _ (fun _ _ h =>
          productsOk_of_eq h (insertCustomer_products _ _ _) rfl)))
      fun _ _ =>
      keeps_bind
        (keeps_forLoop _ _ _ fun _ =>
          keeps_pgCall env _ _ (fun _ _ h =>
            productsOk_of_eq h (insertTable_products _ _ _) rfl))
        fun _ _ =>
        keeps_bind
          (keeps_fanOut
            (R := fun a : String × Option String × Fixed2 =>
              (∃ c, a.2.1 = some c ∧ GoodCategory c) ∧ GoodPrice a.2.2) _ _ _ _
            (fun _ =>
              keeps_bind (keeps_random (R := fun r => IsDraw r) env hr) fun r1 h1 =>
                keeps_bind (keeps_random (R := fun r => IsDraw r) env hr) fun r2 h2 =>
                  keeps_pure _ ⟨pickCategory_cases r1 h1, randomPrice_hundredths r2 h2⟩)
            (fun _ ha => keeps_pgCall env _ _ (fun _ _ h =>
              insertProduct_productsOk h _ _ _ ha.1 ha.2)))
          fun _ _ => keeps_bind (seedOrders_keeps env) fun _ _ => keeps_emit _)

theorem populateMongo_keeps (env : Env) (hr : ∀ k, IsDraw (env.random k)) :
    Keeps ProductsOk (populateMongo env) (fun _ => True) :=
  keeps_phase _
    (keeps_bind
      (keeps_collect (R := fun _ => True) _ _ _ fun _ =>
        keeps_bind (keeps_random (R := fun _ => True) env (fun _ => trivial)) fun _ _ =>
          keeps_pure _ trivial)
      fun _ _ =>
      keeps_bind (keeps_mongoCall env _ _ (fun _ _ h => h)) fun _ _ =>
        keeps_bind
          (keeps_collect
            (R := fun d : MenuDoc => (∃ c, d.category = some c ∧ GoodCategory c) ∧
              GoodPrice d.price) _ _ _ fun _ =>
            keeps_bind (keeps_random (R := fun r => IsDraw r) env hr) fun r1 h1 =>
              keeps_bind (keeps_random (R := fun r => IsDraw r) env hr) fun r2 h2 =>
                keeps_pure _ ⟨pickCategory_cases r1 h1,
                  randomPrice_hundredths r2 h2⟩)
          fun mdocs hm =>
          keeps_bind
            (keeps_mongoCall env _ _ (fun _ _ h =>
              ⟨h.1, fun d hd => by
                rcases List.mem_append.mp hd with hd | hd
                · exact h.2 d hd
                · exact hm d hd⟩))
            fun _ _ =>
            keeps_bind
              (keeps_forLoop _ _ _ fun _ =>
                keeps_bind
                  (keeps_bind (keeps_random (R := fun _ => True) env (fun _ => trivial))
                    fun _ _ =>
                    keeps_bind (keeps_random (R := fun _ => True) env (fun _ => trivial))
                      fun _ _ =>
                      keeps_bind (keeps_clock env) fun _ _ =>
                        keeps_bind
                          (keeps_collect (R := fun _ => True) _ _ _ fun _ =>
                            keeps_bind
                              (keeps_random (R := fun _ => True) env (fun _ => trivial))
                              fun _ _ =>
                              keeps_bind
                                (keeps_random (R := fun _ => True) env (fun _ => trivial))
                                fun _ _ => keeps_pure _ trivial)
                          fun _ _ => keeps_pure (R := fun _ => True) _ trivial)
                  fun _ _ => keeps_mongoCall env _ _ (fun _ _ h => h))
              fun _ _ => keeps_emit _)

/-- In every run whose draws are binary64 values in `[0, 1)`, whatever store
calls are rejected, `populatePostgres` and `populateMongo` only add product rows
and menu documents whose category is Drinks, Snacks or Meals and whose price
lies in `[0.00, 50.00]`. -/
theorem generated_products_wellformed (env : Env)
    (hr : ∀ k, IsDraw (env.random k)) (w : World)
    (hw : ProductsOk w.pg w.mongo) :
    ProductsOk (populatePostgres env w).2.pg (populatePostgres env w).2.mongo ∧
    ProductsOk (populateMongo env w).2.pg (populateMongo env w).2.mongo :=
  ⟨(populatePostgres_keeps env hr w hw).1, (populateMongo_keeps env hr w hw).1⟩

end Lab2DB
